import Mathlib

/-!
Shallow embedding of the planning pipeline of the data-insights repository
(`src/features.py`, `src/planner.py`, `src/nlq_hf.py`, `src/nlq.py`,
`src/llm_router.py`, and the plan-enrichment block of `src/app.py`),
together with theorems settling the frozen claims about it.

Modelling conventions:
* Python/JSON/pandas values are modelled by `PyVal`.  Timestamps are
  modelled at day granularity as integers (`vdate`); `None`, `NaN` and
  `NaT` are all modelled by `vnone`.  JSON numbers are modelled as
  integers (no floating point enters any claim).
* A pandas DataFrame is a column-name list plus rows given as association
  lists from column name to value (`DFrame`).
* Functions that can raise a Python exception return `Except PyExc _`.
* All string scanning (the `re` patterns of the source) is implemented on
  `List Char`, by structural or fuel recursion only, so that every
  definition evaluates by kernel reduction.
-/

/-- A Python runtime value as it occurs in plans, JSON payloads and
pandas cells.  `vnone` stands for `None`, `NaN` and `NaT` alike;
`vdate d` is a timestamp at day granularity (days since the epoch). -/
inductive PyVal where
  | vnone : PyVal
  | vbool (b : Bool) : PyVal
  | vint (n : Int) : PyVal
  | vstr (s : String) : PyVal
  | vdate (d : Int) : PyVal
  | vlist (xs : List PyVal) : PyVal
  | vdict (kvs : List (String × PyVal)) : PyVal

/-- The Python exceptions the modelled code can raise. -/
inductive PyExc where
  | typeError : PyExc
  | attributeError : PyExc
  | jsonDecodeError : PyExc
  | requestException : PyExc
  deriving DecidableEq

/-- Python truthiness (`bool(x)`): `None`, `False`, `0`, empty string,
empty list and empty dict are falsy; timestamps are truthy. -/
def pyFalsy : PyVal → Bool
  | .vnone => true
  | .vbool b => !b
  | .vint n => decide (n = 0)
  | .vstr s => decide (s = "")
  | .vlist xs => xs.isEmpty
  | .vdict kvs => kvs.isEmpty
  | .vdate _ => false

/-- Elementwise pandas equality (`series == value`).  `NaN`/`None` compares
unequal to everything, including itself; `True == 1` as in Python.
Container values never occur in the compared positions of the modelled
code paths, and compare unequal. -/
def pyEqB : PyVal → PyVal → Bool
  | .vbool a, .vbool b => a == b
  | .vbool a, .vint n => decide ((if a then (1 : Int) else 0) = n)
  | .vint n, .vbool a => decide (n = (if a then (1 : Int) else 0))
  | .vint a, .vint b => decide (a = b)
  | .vstr a, .vstr b => decide (a = b)
  | .vdate a, .vdate b => decide (a = b)
  | _, _ => false

/-- Scalar identity used where pandas matches group keys / `isin` members
(the relevant columns and filter lists hold only scalars). -/
def pvKeyEqB : PyVal → PyVal → Bool
  | .vnone, .vnone => true
  | a, b => pyEqB a b

/-- drop leading and trailing whitespace from a character list -/
def trimChars (l : List Char) : List Char :=
  ((l.dropWhile Char.isWhitespace).reverse.dropWhile Char.isWhitespace).reverse

def digitsVal (l : List Char) : Option Int :=
  if l.isEmpty then none
  else if l.all Char.isDigit then
    some (l.foldl (fun acc c => acc * 10 + (c.toNat - 48 : Int)) 0)
  else none

def parseIntChars : List Char → Option Int
  | [] => none
  | '-' :: rest => (digitsVal rest).map (fun n => -n)
  | '+' :: rest => digitsVal rest
  | l => digitsVal l

/-- Model of Python `int(x)`: `none` is a failure (raises). -/
def pyToInt (v : PyVal) : Option Int :=
  match v with
  | .vint n => some n
  | .vbool b => some (if b then 1 else 0)
  | .vstr s => parseIntChars (trimChars s.data)
  | _ => none

/-- Model of `pd.to_datetime(x, errors="coerce")` on a single cell:
already-parsed timestamps survive, everything else coerces to `NaT`. -/
def toDT : PyVal → Option Int
  | .vdate d => some d
  | _ => none

/-- Elementwise pandas multiplication; anything involving `NaN` is `NaN`. -/
def pvMul : PyVal → PyVal → PyVal
  | .vint a, .vint b => .vint (a * b)
  | _, _ => .vnone

/-- Elementwise pandas addition; anything involving `NaN` is `NaN`. -/
def pvAdd : PyVal → PyVal → PyVal
  | .vint a, .vint b => .vint (a + b)
  | _, _ => .vnone

/-- `(pd.to_datetime a - pd.to_datetime b).dt.days` on one row. -/
def pvDaysDiff (a b : PyVal) : PyVal :=
  match toDT a, toDT b with
  | some x, some y => .vint (x - y)
  | _, _ => .vnone

/-- `NaT`-aware `≤` on parsed timestamps: any comparison with `NaT` is false. -/
def dtLeB : Option Int → Option Int → Bool
  | some a, some b => decide (a ≤ b)
  | _, _ => false

/-- `NaT`-aware `<` on parsed timestamps: any comparison with `NaT` is false. -/
def dtLtB : Option Int → Option Int → Bool
  | some a, some b => decide (a < b)
  | _, _ => false

/-- Case lowering, character by character (ASCII suffices for all the
text this pipeline inspects). -/
def lowerChars (l : List Char) : List Char := l.map Char.toLower

def sLower (s : String) : String := ⟨lowerChars s.data⟩

/-- `pre` is a prefix of `l`. -/
def isPre : List Char → List Char → Bool
  | [], _ => true
  | _ :: _, [] => false
  | a :: as, b :: bs => decide (a = b) && isPre as bs

/-- `needle` occurs as a contiguous substring of `hay` (Python `in`). -/
def isSub (needle : List Char) : List Char → Bool
  | [] => needle.isEmpty
  | c :: t => isPre needle (c :: t) || isSub needle t

def strContains (hay needle : String) : Bool := isSub needle.data hay.data

/-- Dictionary lookup on a Python dict modelled as an association list
(first binding wins; Python dicts have unique keys). -/
def dLookup (k : String) : List (String × PyVal) → Option PyVal
  | [] => none
  | (c, v) :: rest => if c = k then some v else dLookup k rest

/-- `d.setdefault(k, v)` / `d.get(k, v)`-style insertion: keeps the dict
unchanged when the key is present, else appends the binding. -/
def dSetDefault (d : List (String × PyVal)) (k : String) (v : PyVal) :
    List (String × PyVal) :=
  if (dLookup k d).isSome then d else d ++ [(k, v)]

/-- `d[k] = v`: update the binding in place, else append it. -/
def dSet (k : String) (v : PyVal) : List (String × PyVal) → List (String × PyVal)
  | [] => [(k, v)]
  | (c, w) :: rest => if c = k then (c, v) :: rest else (c, w) :: dSet k v rest

/-- `d.get(k)` with a default. -/
def dGetD (d : List (String × PyVal)) (k : String) (v : PyVal) : PyVal :=
  (dLookup k d).getD v

/-- A pandas DataFrame: the column list and the rows, each row an
association list from column name to cell value. -/
structure DFrame where
  cols : List String
  rows : List (List (String × PyVal))

/-- Well-formedness: every row binds exactly the frame's columns, in order. -/
def DWF (df : DFrame) : Prop :=
  ∀ r ∈ df.rows, r.map Prod.fst = df.cols

/-- Cell access `row[col]` (total; the theorems' hypotheses guarantee the
column is present wherever the source would otherwise raise `KeyError`). -/
def cell (r : List (String × PyVal)) (c : String) : PyVal :=
  (dLookup c r).getD .vnone

/-- `df[mask]`-style row filtering; never touches the columns. -/
def filterRows (df : DFrame) (p : List (String × PyVal) → Bool) : DFrame :=
  { cols := df.cols, rows := df.rows.filter p }

/-- `df[c] = series` for a fresh computed column: appends the value
produced from each (already partially extended) row. -/
def addCol (df : DFrame) (name : String) (f : List (String × PyVal) → PyVal) :
    DFrame :=
  { cols := df.cols ++ [name]
    rows := df.rows.map (fun r => r ++ [(name, f r)]) }

/-- The `if name not in df.columns: df[name] = ...` idiom of
`derive_features`. -/
def addColIfAbsent (df : DFrame) (name : String)
    (f : List (String × PyVal) → PyVal) : DFrame :=
  if name ∈ df.cols then df else addCol df name f

/- expected columns, from `src/constants.py` -/

def EXPECTED_DATE_COLS : List String :=
  ["po_date", "planned_ship_date", "actual_ship_date", "planned_eta", "actual_eta"]

def EXPECTED_BASE_COLS : List String :=
  ["po_number", "supplier", "origin_country", "destination_country", "lane", "mode",
   "incoterm", "status", "quantity", "unit_price", "freight_cost", "duty_cost",
   "shipment_id"]

def EXPECTED_COLS : List String := EXPECTED_BASE_COLS ++ EXPECTED_DATE_COLS

/- derived-feature computation, from `src/features.py` (`derive_features`);
`today` models `pd.Timestamp.utcnow().date()` at day granularity -/

/-- pandas `series.isin(strings)` against a list of string literals. -/
def statusIsIn (v : PyVal) (names : List String) : Bool :=
  names.any (fun s => pyEqB v (.vstr s))

/-- `series > k` on an integer column; `NaN > k` is false. -/
def pvGtIntB (v : PyVal) (k : Int) : Bool :=
  match v with
  | .vint n => decide (k < n)
  | _ => false

def derive_features (today : Int) (df : DFrame) : DFrame :=
  let d1 := addColIfAbsent df "po_value"
    (fun r => pvMul (cell r "quantity") (cell r "unit_price"))
  let d2 := addColIfAbsent d1 "total_landed_cost"
    (fun r => pvAdd (pvAdd (cell r "po_value") (cell r "freight_cost"))
      (cell r "duty_cost"))
  let d3 := addColIfAbsent d2 "lead_time_days"
    (fun r => pvDaysDiff (cell r "actual_ship_date") (cell r "po_date"))
  let d4 := addColIfAbsent d3 "transit_time_days"
    (fun r => pvDaysDiff (cell r "actual_eta") (cell r "actual_ship_date"))
  let d5 := addColIfAbsent d4 "delay_days_vs_planned_eta"
    (fun r => pvDaysDiff (cell r "actual_eta") (cell r "planned_eta"))
  let d6 := addColIfAbsent d5 "on_time"
    (fun r =>
      if pyEqB (cell r "status") (.vstr "Delivered")
          && dtLeB (toDT (cell r "actual_eta")) (toDT (cell r "planned_eta"))
      then .vint 1 else .vint 0)
  let d7 := addColIfAbsent d6 "risk_flag"
    (fun r =>
      if (statusIsIn (cell r "status") ["In-Transit", "Delayed"]
            && dtLtB (toDT (cell r "planned_eta")) (some today))
          || (pyEqB (cell r "status") (.vstr "Delivered")
            && pvGtIntB (cell r "delay_days_vs_planned_eta") 7)
      then .vint 1 else .vint 0)
  d7

/- plan executor, from `src/planner.py` -/

/-- `_METRIC_ALIASES` of `src/planner.py`. -/
def METRIC_ALIASES : List (String × String) :=
  [("spend", "total_landed_cost"),
   ("total_spend", "total_landed_cost"),
   ("landed_cost", "total_landed_cost"),
   ("cost", "total_landed_cost"),
   ("delay_days", "delay_days_vs_planned_eta"),
   ("avg_delay", "delay_days_vs_planned_eta"),
   ("on_time_percent", "on_time_percent"),
   ("on_time_%", "on_time_percent"),
   ("on-time %", "on_time_percent")]

def DIMENSIONS : List String := ["supplier", "lane", "mode", "status"]

/-- `_METRIC_ALIASES.get(m, m)`. -/
def aliasLookup (m : String) : String :=
  ((METRIC_ALIASES.find? (fun p => decide (p.1 = m))).map Prod.snd).getD m

def defaultMetricLoop (cols : List String) : List String → Option String
  | [] => none
  | a :: rest =>
    let col := aliasLookup a
    if col ∈ cols then some col else defaultMetricLoop cols rest

/-- `_resolve_metric` of `src/planner.py`; the metric argument is the raw
plan value (`limit.get("metric")`). -/
def resolve_metric (cols : List String) (metric : PyVal) : Option String :=
  if pyFalsy metric then
    defaultMetricLoop cols ["spend", "total_spend", "landed_cost", "cost"]
  else
    match metric with
    | .vstr s =>
      let col := aliasLookup s
      if col ∈ cols then some col else none
    | _ => none

/-- loop body of `_apply_filters`: one `(column, value)` pair at a time,
unknown columns ignored, list values via `isin`, scalars via `==`. -/
def applyFilterItems (df : DFrame) : List (String × PyVal) → DFrame
  | [] => df
  | (k, v) :: rest =>
    let df' :=
      if k ∈ df.cols then
        match v with
        | .vlist xs => filterRows df (fun r => xs.any (fun e => pvKeyEqB (cell r k) e))
        | _ => filterRows df (fun r => pyEqB (cell r k) v)
      else df
    applyFilterItems df' rest

/-- `_apply_filters` of `src/planner.py`. -/
def apply_filters (df : DFrame) (filters : PyVal) : Except PyExc DFrame :=
  if pyFalsy filters then .ok df
  else
    match filters with
    | .vdict kvs => .ok (applyFilterItems df kvs)
    | _ => .error .attributeError

/-- timestamp-column candidates hard-coded in `_apply_time_range`. -/
def TS_CANDIDATES : List String :=
  ["created_at", "shipment_date", "eta", "updated_at", "date"]

/-- `_apply_time_range` of `src/planner.py`; `now` models
`pd.Timestamp.utcnow()` at day granularity. -/
def apply_time_range (now : Int) (df : DFrame) (time_range : PyVal) :
    Except PyExc DFrame :=
  if pyFalsy time_range then .ok df
  else
    match TS_CANDIDATES.find? (fun c => decide (c ∈ df.cols)) with
    | none => .ok df
    | some ts =>
      match time_range with
      | .vdict kvs =>
        let ty := dGetD kvs "type" .vnone
        if pyEqB ty (.vstr "last_n_days") then
          match pyToInt (dGetD kvs "n" (.vint 30)) with
          | none => .error .typeError
          | some n =>
            let cutoff := now - n
            .ok (filterRows df (fun r => dtLeB (some cutoff) (toDT (cell r ts))))
        else .ok df
      | _ => .error .attributeError

/-- stable insertion: `x` goes in front of the first element it is
`le`-below-or-equal-to. -/
def insertLe {α : Type} (le : α → α → Bool) (x : α) : List α → List α
  | [] => [x]
  | y :: ys => if le x y then x :: y :: ys else y :: insertLe le x ys

/-- stable insertion sort, the model of the (small-input) numpy sorts used
by `groupby(...).sort_values(...)` in `_apply_limit`.  numpy's default sort
is insertion sort below 17 elements, so this model is exact for the group
counts exercised here; it is in any case a deterministic stable sort. -/
def isortLe {α : Type} (le : α → α → Bool) : List α → List α
  | [] => []
  | x :: xs => insertLe le x (isortLe le xs)

/-- first-appearance-ordered distinct non-null values of column `dim`
(the raw group keys before pandas sorts them). -/
def faKeys (dim : String) : List (List (String × PyVal)) → List PyVal → List PyVal
  | [], acc => acc
  | r :: rest, acc =>
    let v := cell r dim
    if (match v with | .vnone => true | _ => false) || acc.any (pvKeyEqB v) then
      faKeys dim rest acc
    else faKeys dim rest (acc ++ [v])

/-- numeric contribution of one cell to a pandas skip-`NaN` sum. -/
def cellNumVal : PyVal → Int
  | .vint n => n
  | .vbool b => if b then 1 else 0
  | _ => 0

/-- `df.groupby(dim)[metric].sum()` for one group key. -/
def gsum (rows : List (List (String × PyVal))) (dim metric : String)
    (k : PyVal) : Int :=
  rows.foldl
    (fun s r => if pvKeyEqB (cell r dim) k then s + cellNumVal (cell r metric) else s) 0

/-- `df.groupby(dim).size()` for one group key. -/
def gcount (rows : List (List (String × PyVal))) (dim : String) (k : PyVal) : Int :=
  rows.foldl (fun s r => if pvKeyEqB (cell r dim) k then s + 1 else s) 0

/- total order on group-key scalars, modelling the key sort performed by
`groupby` (keys in these columns are strings; the order extends totally to
the other scalar shapes so the sort lemmas go through uniformly) -/

def clLeB : List Char → List Char → Bool
  | [], _ => true
  | _ :: _, [] => false
  | a :: as, b :: bs => if a = b then clLeB as bs else decide (a < b)

def pvRank : PyVal → Nat
  | .vnone => 0
  | .vbool _ => 1
  | .vint _ => 2
  | .vstr _ => 3
  | .vdate _ => 4
  | .vlist _ => 5
  | .vdict _ => 6

def pvPayloadInt : PyVal → Int
  | .vbool b => if b then 1 else 0
  | .vint n => n
  | .vdate d => d
  | _ => 0

def pvPayloadStr : PyVal → List Char
  | .vstr s => s.data
  | _ => []

def pvLeB (a b : PyVal) : Bool :=
  decide (pvRank a < pvRank b) ||
    (decide (pvRank a = pvRank b) &&
      (decide (pvPayloadInt a < pvPayloadInt b) ||
        (decide (pvPayloadInt a = pvPayloadInt b)
          && clLeB (pvPayloadStr a) (pvPayloadStr b))))

/-- per-group aggregate of `_apply_limit`: metric sum, or row count when
the metric is unresolved. -/
def limitAgg (rows : List (List (String × PyVal))) (dim : String)
    (metricCol : Option String) : PyVal → Int :=
  match metricCol with
  | some c => gsum rows dim c
  | none => gcount rows dim

/-- the top-N group keys of `_apply_limit`: group keys sorted ascending by
`groupby`, then stably sorted descending by the aggregate, then `head(n)`. -/
def limitTopKeys (df : DFrame) (dim : String) (metricCol : Option String)
    (n : Nat) : List PyVal :=
  let keys := isortLe pvLeB (faKeys dim df.rows [])
  (isortLe (fun a b =>
    decide (limitAgg df.rows dim metricCol b ≤ limitAgg df.rows dim metricCol a))
    keys).take n

/-- `_apply_limit` of `src/planner.py`. -/
def apply_limit (df : DFrame) (limit : PyVal) : Except PyExc DFrame :=
  if pyFalsy limit then .ok df
  else
    match limit with
    | .vdict kvs =>
      let dv := dGetD kvs "dimension" .vnone
      let dvOr := if pyFalsy dv then .vstr "" else dv
      match dvOr with
      | .vstr ds =>
        let dim := String.mk (trimChars ds.data)
        if dim ∈ DIMENSIONS ∧ dim ∈ df.cols then
          match pyToInt (dGetD kvs "n" (.vint 5)) with
          | none => .ok df
          | some n =>
            if n ≤ 0 then .ok df
            else
              let metricCol := resolve_metric df.cols (dGetD kvs "metric" .vnone)
              let top := limitTopKeys df dim metricCol n.toNat
              .ok (filterRows df (fun r => top.any (pvKeyEqB (cell r dim))))
        else .ok df
      | _ => .error .attributeError
    | _ => .error .attributeError

/-- `apply_llm_plan` of `src/planner.py`: time range, then filters, then
limit; `data` is accepted and ignored exactly as in the source. -/
def apply_llm_plan (now : Int) (_data df : DFrame)
    (plan : List (String × PyVal)) : Except PyExc DFrame := do
  let o1 ← apply_time_range now df (dGetD plan "time_range" .vnone)
  let o2 ← apply_filters o1 (dGetD plan "filters" .vnone)
  let o3 ← apply_limit o2 (dGetD plan "limit" .vnone)
  return o3

/- heuristic planner, from `src/nlq_hf.py` -/

/-- `_WORD_TO_NUM` of `src/nlq_hf.py`. -/
def WORD_TO_NUM : List (String × Nat) :=
  [("one", 1), ("two", 2), ("three", 3), ("four", 4), ("five", 5),
   ("six", 6), ("seven", 7), ("eight", 8), ("nine", 9), ("ten", 10),
   ("eleven", 11), ("twelve", 12), ("thirteen", 13), ("fourteen", 14),
   ("fifteen", 15)]

/-- a regex word character (`\w`). -/
def wordChar (c : Char) : Bool := c.isAlphanum || c = '_'

/-- decimal digits of a number word's value (all values are ≤ 15). -/
def smallNatChars (n : Nat) : List Char :=
  if n < 10 then [Char.ofNat (48 + n)] else ['1', Char.ofNat (48 + n - 10)]

/-- substitute one maximal word-character run: a number word becomes its
digits, anything else is kept (the `\b(one|...)\b` semantics: a word-run
that is not exactly a number word has no inner boundary match). -/
def numWordSub (run : List Char) : List Char :=
  match (WORD_TO_NUM.find? (fun p => decide (p.1.data = lowerChars run))).map Prod.snd with
  | some n => smallNatChars n
  | none => run

def normWordsGo : Nat → List Char → List Char
  | 0, l => l
  | _ + 1, [] => []
  | fuel + 1, c :: cs =>
    if wordChar c then
      numWordSub (c :: cs.takeWhile wordChar) ++ normWordsGo fuel (cs.dropWhile wordChar)
    else c :: normWordsGo fuel cs

/-- `_normalize_number_words_to_digits` of `src/nlq_hf.py`. -/
def normalize_number_words (l : List Char) : List Char :=
  normWordsGo (l.length + 1) l

/-- `DIMENSION_ALIASES` of `src/nlq_hf.py`. -/
def DIMENSION_ALIASES : List (String × List String) :=
  [("supplier", ["supplier", "suppliers", "vendor", "vendors"]),
   ("lane", ["lane", "lanes"]),
   ("mode", ["mode", "modes"]),
   ("status", ["status", "statuses"])]

/-- `STATUS_SYNONYMS["Delayed"]` of `src/nlq_hf.py`. -/
def STATUS_SYNONYMS_DELAYED : List String :=
  ["risky", "at risk", "risk", "behind schedule", "late", "delayed", "overdue",
   "running late", "lagging", "slipped"]

/-- consume the `(?:top|limit)` alternation. -/
def matchKw (l : List Char) : Option (List Char) :=
  if isPre "top".data l then some (l.drop 3)
  else if isPre "limit".data l then some (l.drop 5)
  else none

/-- `\b` to the right of an alias occurrence. -/
def boundaryAfter : List Char → Bool
  | [] => true
  | c :: _ => !wordChar c

/-- the `(?:alias1|alias2|...)` alternation (optionally with the extra
literal `s` of the second pattern family), followed by `\b`. -/
def aliasMatch (aliases : List String) (extraS : Bool) (l : List Char) : Bool :=
  aliases.any (fun a =>
    let al := a.data ++ (if extraS then ['s'] else [])
    isPre al l && boundaryAfter (l.drop al.length))

/-- one anchored attempt of `\b(?:top|limit)\s+(\d+)\s+ALIAS\b` (the caller
has checked the left boundary); returns the captured number. -/
def matchTopAt (aliases : List String) (extraS : Bool) (l : List Char) :
    Option Int :=
  match matchKw l with
  | none => none
  | some r1 =>
    if (r1.takeWhile Char.isWhitespace).isEmpty then none
    else
      let r2 := r1.dropWhile Char.isWhitespace
      let ds := r2.takeWhile Char.isDigit
      if ds.isEmpty then none
      else
        let r3 := r2.dropWhile Char.isDigit
        if (r3.takeWhile Char.isWhitespace).isEmpty then none
        else
          let r4 := r3.dropWhile Char.isWhitespace
          if aliasMatch aliases extraS r4 then digitsVal ds else none

/-- `pattern.search`: leftmost match over all start positions. -/
def searchTopPat (aliases : List String) (extraS : Bool) :
    Bool → List Char → Option Int
  | _, [] => none
  | prevW, c :: cs =>
    match (if prevW then none else matchTopAt aliases extraS (c :: cs)) with
    | some n => some n
    | none => searchTopPat aliases extraS (wordChar c) cs

/-- the interleaved pattern list of `extract_top_limit_from_text`
(for each dimension: the plain pattern, then the `...s\b` variant). -/
def topPatterns : List (String × List String × Bool) :=
  (DIMENSION_ALIASES.map (fun p => [(p.1, p.2, false), (p.1, p.2, true)])).flatten

def topPatLoop (q : List Char) :
    List (String × List String × Bool) → Option (String × Int)
  | [] => none
  | (dim, aliases, es) :: rest =>
    match searchTopPat aliases es false q with
    | some n => some (dim, n)
    | none => topPatLoop q rest

/-- `extract_top_limit_from_text` of `src/nlq_hf.py`. -/
def extract_top_limit_from_text (query : String) : Option (String × Int) :=
  topPatLoop (normalize_number_words (lowerChars query.data)) topPatterns

/-- the character class `[a-z0-9\-\s&\.]` of the supplier capture. -/
def supClass (c : Char) : Bool :=
  (decide ('a' ≤ c) && decide (c ≤ 'z')) || c.isDigit || decide (c = '-')
    || c.isWhitespace || decide (c = '&') || decide (c = '.')

/-- consume the `(?:supplier|vendor)` alternation. -/
def supKw (l : List Char) : Option (List Char) :=
  if isPre "supplier".data l then some (l.drop 8)
  else if isPre "vendor".data l then some (l.drop 6)
  else none

/-- one anchored attempt of `(?:supplier|vendor)\s+([a-z0-9\-\s&\.]+)`;
returns the captured group.  When everything after the whitespace falls
outside the class, the regex backtracks `\s+` by one character and the
class consumes that final whitespace character. -/
def supMatchAt (l : List Char) : Option (List Char) :=
  match supKw l with
  | none => none
  | some r1 =>
    let ws := r1.takeWhile Char.isWhitespace
    if ws.isEmpty then none
    else
      let r2 := r1.dropWhile Char.isWhitespace
      let cls := r2.takeWhile supClass
      if cls.isEmpty then
        if 2 ≤ ws.length then some [ws.reverse.headD ' '] else none
      else some cls

def supplierSearch : List Char → Option (List Char)
  | [] => none
  | c :: cs =>
    match supMatchAt (c :: cs) with
    | some g => some g
    | none => supplierSearch cs

/-- Python `str.title()` on the captured (lowercase) supplier text. -/
def titleChars : Bool → List Char → List Char
  | _, [] => []
  | prevA, c :: cs =>
    (if c.isAlpha && !prevA then c.toUpper else c) :: titleChars c.isAlpha cs

/-- `build_heuristic_plan` of `src/nlq_hf.py`. -/
def build_heuristic_plan (query : String) : List (String × PyVal) :=
  let ql := sLower query
  let time_range : PyVal :=
    if strContains ql "last 30 days" then
      .vdict [("type", .vstr "last_n_days"), ("n", .vint 30)]
    else if strContains ql "last 14 days" then
      .vdict [("type", .vstr "last_n_days"), ("n", .vint 14)]
    else if strContains ql "last quarter" then
      .vdict [("type", .vstr "last_n_days"), ("n", .vint 90)]
    else .vnone
  let filters0 : List (String × PyVal) :=
    if STATUS_SYNONYMS_DELAYED.any (fun w => strContains ql w) then
      [("status", .vstr "Delayed")]
    else []
  let filters : List (String × PyVal) :=
    match supplierSearch ql.data with
    | some g => filters0 ++ [("supplier", .vstr ⟨titleChars false (trimChars g)⟩)]
    | none => filters0
  let top := extract_top_limit_from_text query
  let metricStr : String :=
    if strContains ql "delay" then "delay_days_vs_planned_eta"
    else if strContains ql "on-time" || strContains ql "on time" then "on_time_percent"
    else "total_landed_cost"
  let limit : PyVal :=
    match top with
    | some (dim, n) =>
      .vdict [("dimension", .vstr dim), ("n", .vint n), ("metric", .vstr metricStr)]
    | none => .vnone
  let group_by : PyVal :=
    match top with
    | some (dim, _) => .vstr dim
    | none => .vnone
  let order_by : PyVal :=
    match top with
    | some _ => .vdict [("metric", .vstr metricStr), ("direction", .vstr "desc")]
    | none =>
      if strContains ql "by spend" then
        .vdict [("metric", .vstr "total_landed_cost"), ("direction", .vstr "desc")]
      else if strContains ql "by delay" then
        .vdict [("metric", .vstr "delay_days_vs_planned_eta"), ("direction", .vstr "desc")]
      else if strContains ql "by on-time" || strContains ql "by on time" then
        .vdict [("metric", .vstr "on_time_percent"), ("direction", .vstr "desc")]
      else .vnone
  [("time_range", time_range), ("filters", .vdict filters),
   ("group_by", group_by), ("order_by", order_by), ("limit", limit),
   ("select", .vnone)]

/- fallback prompt parser's date logic, from `src/nlq.py` -/

def isLeap (y : Int) : Bool := y % 4 = 0 && (y % 100 ≠ 0 || y % 400 = 0)

def daysInMonth (y m : Int) : Int :=
  if m = 2 then (if isLeap y then 29 else 28)
  else if m = 4 ∨ m = 6 ∨ m = 9 ∨ m = 11 then 30
  else 31

/-- civil date to days since the Unix epoch (standard days-from-civil
computation; all dates in scope have positive years, so truncating
integer division is exact). -/
def civilToDays (y m d : Int) : Int :=
  let y' := if m ≤ 2 then y - 1 else y
  let era := y' / 400
  let yoe := y' - era * 400
  let mp := (m + 9) % 12
  let doy := (153 * mp + 2) / 5 + d - 1
  let doe := yoe * 365 + yoe / 4 - yoe / 100 + doy
  era * 146097 + doe - 719468

/-- the unit table of `_last_n` (`{"day":1, "week":7, "month":30,
"quarter":90, "year":365}`). -/
def lastNUnits : List (String × Int) :=
  [("day", 1), ("week", 7), ("month", 30), ("quarter", 90), ("year", 365)]

def unitMatch (l : List Char) : Option Int :=
  (lastNUnits.find? (fun p => isPre p.1.data l)).map Prod.snd

/-- one anchored attempt of `last\s+(\d+)\s*(day|week|month|quarter|year)s?`;
returns the matched `Timedelta` in days (`n * unit`). -/
def lastNAt (l : List Char) : Option Int :=
  if isPre "last".data l then
    let r1 := l.drop 4
    if (r1.takeWhile Char.isWhitespace).isEmpty then none
    else
      let r2 := r1.dropWhile Char.isWhitespace
      let ds := r2.takeWhile Char.isDigit
      if ds.isEmpty then none
      else
        let r3 := (r2.dropWhile Char.isDigit).dropWhile Char.isWhitespace
        match unitMatch r3 with
        | some days => (digitsVal ds).map (fun n => n * days)
        | none => none
  else none

def lastNSearch : List Char → Option Int
  | [] => none
  | c :: cs =>
    match lastNAt (c :: cs) with
    | some v => some v
    | none => lastNSearch cs

/-- `_last_n` of `src/nlq.py` (the returned `Timedelta`, in days). -/
def last_n (text : String) : Option Int := lastNSearch text.data

/-- consume `\d{4}-\d{2}-\d{2}`, returning `(y, m, d)` and the rest. -/
def parseDateAt : List Char → Option ((Int × Int × Int) × List Char)
  | a :: b :: c :: d :: '-' :: e :: f :: '-' :: g :: h :: rest =>
    if [a, b, c, d, e, f, g, h].all Char.isDigit then
      match digitsVal [a, b, c, d], digitsVal [e, f], digitsVal [g, h] with
      | some y, some m, some dd => some ((y, m, dd), rest)
      | _, _, _ => none
    else none
  | _ => none

/-- one anchored attempt of
`between\s+(\d{4}-\d{2}-\d{2})\s+(?:and|to)\s+(\d{4}-\d{2}-\d{2})`. -/
def betweenAt (l : List Char) : Option (Int × Int) :=
  if isPre "between".data l then
    let r1 := l.drop 7
    if (r1.takeWhile Char.isWhitespace).isEmpty then none
    else
      match parseDateAt (r1.dropWhile Char.isWhitespace) with
      | none => none
      | some ((y1, m1, d1), r2) =>
        if (r2.takeWhile Char.isWhitespace).isEmpty then none
        else
          let r3 := r2.dropWhile Char.isWhitespace
          let conj : Option (List Char) :=
            if isPre "and".data r3 then some (r3.drop 3)
            else if isPre "to".data r3 then some (r3.drop 2)
            else none
          match conj with
          | none => none
          | some r4 =>
            if (r4.takeWhile Char.isWhitespace).isEmpty then none
            else
              match parseDateAt (r4.dropWhile Char.isWhitespace) with
              | none => none
              | some ((y2, m2, d2), _) =>
                let a := civilToDays y1 m1 d1
                let b := civilToDays y2 m2 d2
                some (if a ≤ b then (a, b) else (b, a))
  else none

def betweenSearch : List Char → Option (Int × Int)
  | [] => none
  | c :: cs =>
    match betweenAt (c :: cs) with
    | some v => some v
    | none => betweenSearch cs

/-- `_between_dates` of `src/nlq.py`: the normalized `(start, end)` days.
(`pd.to_datetime` is modelled as total on the matched digit groups; the
matched dates in every claim are ordinary calendar dates.) -/
def between_dates (text : String) : Option (Int × Int) := betweenSearch text.data

/-- `_this_last_period` of `src/nlq.py`; today is the civil date of
`pd.Timestamp.utcnow().normalize()`. -/
def this_last_period (ty tm td : Int) (text : String) : Option (Int × Int) :=
  let today := civilToDays ty tm td
  if strContains text "this year" then some (civilToDays ty 1 1, today)
  else if strContains text "last year" then
    some (civilToDays (ty - 1) 1 1, civilToDays (ty - 1) 12 31)
  else if strContains text "this quarter" then
    let q := (tm - 1) / 3 + 1
    some (civilToDays ty (3 * (q - 1) + 1) 1, today)
  else if strContains text "last quarter" then
    let q0 := (tm - 1) / 3 + 1 - 1
    let q := if q0 = 0 then 4 else q0
    let y := if q0 = 0 then ty - 1 else ty
    let start := civilToDays y (3 * (q - 1) + 1) 1
    let stop := civilToDays y (3 * q) (daysInMonth y (3 * q))
    some (start, min stop today)
  else if strContains text "this month" then some (civilToDays ty tm 1, today)
  else if strContains text "last month" then
    let py := if td = 1 then (if tm = 1 then ty - 1 else ty) else ty
    let pm := if td = 1 then (if tm = 1 then 12 else tm - 1) else tm
    let start := civilToDays py pm 1
    let stop := civilToDays py pm (daysInMonth py pm)
    some (start, min stop today)
  else none

/-- the parsed `po_date` series (`pd.to_datetime(df["po_date"],
errors="coerce")`). -/
def seriesPoDates (df : DFrame) : List (Option Int) :=
  df.rows.map (fun r => toDT (cell r "po_date"))

/-- pandas `series.max()` with the default `skipna`: the maximum of the
non-null entries, `NaN` if there are none. -/
def optMax : List (Option Int) → Option Int
  | [] => none
  | none :: rest => optMax rest
  | some x :: rest =>
    match optMax rest with
    | none => some x
    | some y => some (max x y)

/-- `(po >= lo) & (po < hi)` on one entry; `NaT` compares false. -/
def inWin (d : Option Int) (lo hi : Int) : Bool :=
  match d with
  | some x => decide (lo ≤ x) && decide (x < hi)
  | none => false

/-- `_build_date_mask` of `src/nlq.py`. -/
def build_date_mask (df : DFrame) (text : String) (ty tm td : Int) :
    Option (List Bool) :=
  let po := seriesPoDates df
  match between_dates text with
  | some (s, e) => some (po.map (fun d => inWin d s (e + 1)))
  | none =>
    match last_n text with
    | some n =>
      let e := (optMax po).getD (civilToDays ty tm td)
      some (po.map (fun d => inWin d (e - n) (e + 1)))
    | none =>
      match this_last_period ty tm td text with
      | some (s, e) => some (po.map (fun d => inWin d s (e + 1)))
      | none => none

/- plan validation/enrichment block of `src/app.py` (`main`, the block
between `llm_plan_via_hf_router` and `apply_llm_plan`) -/

def SIX_KEYS : List String :=
  ["time_range", "filters", "group_by", "order_by", "limit", "select"]

/-- the `setdefault` fold over a key list. -/
def sdFold (ks : List String) (d : List (String × PyVal)) :
    List (String × PyVal) :=
  ks.foldl (fun acc k => dSetDefault acc k .vnone) d

/-- `for k in [...]: raw_plan.setdefault(k, None)` followed by
`if raw_plan["filters"] is None: raw_plan["filters"] = {}`. -/
def enrichDefaults (p : List (String × PyVal)) : List (String × PyVal) :=
  let p1 := sdFold SIX_KEYS p
  match dLookup "filters" p1 with
  | some .vnone => dSet "filters" (.vdict []) p1
  | _ => p1

/-- the `time_range` enrichment (`ql` is the lowered question). -/
def enrichTime (ql : String) (p : List (String × PyVal)) : List (String × PyVal) :=
  match dLookup "time_range" p with
  | some .vnone =>
    if strContains ql "last 30 days" then
      dSet "time_range" (.vdict [("type", .vstr "last_n_days"), ("n", .vint 30)]) p
    else if strContains ql "last 14 days" then
      dSet "time_range" (.vdict [("type", .vstr "last_n_days"), ("n", .vint 14)]) p
    else if strContains ql "last quarter" then
      dSet "time_range" (.vdict [("type", .vstr "last_n_days"), ("n", .vint 90)]) p
    else p
  | _ => p

/-- the `limit` enrichment (runs on the raw question text). -/
def enrichLimit (q : String) (p : List (String × PyVal)) : List (String × PyVal) :=
  match dLookup "limit" p with
  | some .vnone =>
    match extract_top_limit_from_text q with
    | some (dim, n) =>
      dSet "limit"
        (.vdict [("dimension", .vstr dim), ("n", .vint n),
                 ("metric", .vstr "total_landed_cost")]) p
    | none => p
  | _ => p

/-- the `order_by` enrichment. -/
def enrichOrder (ql : String) (p : List (String × PyVal)) : List (String × PyVal) :=
  match dLookup "order_by" p with
  | some .vnone =>
    if strContains ql "spend" then
      dSet "order_by"
        (.vdict [("metric", .vstr "total_landed_cost"), ("direction", .vstr "desc")]) p
    else if strContains ql "delay" then
      dSet "order_by"
        (.vdict [("metric", .vstr "delay_days_vs_planned_eta"),
                 ("direction", .vstr "desc")]) p
    else if strContains ql "on-time" || strContains ql "on time" then
      dSet "order_by"
        (.vdict [("metric", .vstr "on_time_percent"), ("direction", .vstr "desc")]) p
    else p
  | _ => p

/-- Python `"status" not in X` (negated): membership on a dict is key
membership, on a string it is substring containment, on a list it is
element equality; on other values `in` raises `TypeError`. -/
def containsStatusKey : PyVal → Except PyExc Bool
  | .vdict kvs => .ok (dLookup "status" kvs).isSome
  | .vstr s => .ok (strContains s "status")
  | .vlist xs => .ok (xs.any (fun e => pyEqB e (.vstr "status")))
  | _ => .error .typeError

/-- `raw_plan["filters"]["status"] = "Delayed"`: item assignment succeeds
only on a dict; on any other value it raises `TypeError`. -/
def assignStatus : PyVal → Except PyExc PyVal
  | .vdict kvs => .ok (.vdict (dSet "status" (.vstr "Delayed") kvs))
  | _ => .error .typeError

/-- the `risky` enrichment: `if "risky" in ql and "status" not in
(raw_plan["filters"] or {}): raw_plan["filters"]["status"] = "Delayed"`. -/
def enrichRisky (ql : String) (p : List (String × PyVal)) :
    Except PyExc (List (String × PyVal)) :=
  if strContains ql "risky" then
    let f := dGetD p "filters" .vnone
    let x := if pyFalsy f then .vdict [] else f
    match containsStatusKey x with
    | .error e => .error e
    | .ok has =>
      if has then .ok p
      else
        match assignStatus f with
        | .error e => .error e
        | .ok f2 => .ok (dSet "filters" f2 p)
  else .ok p

/-- the whole enrichment block of `src/app.py` (`main`). -/
def enrich_plan (q : String) (p : List (String × PyVal)) :
    Except PyExc (List (String × PyVal)) :=
  let ql := sLower q
  enrichRisky ql (enrichOrder ql (enrichLimit q (enrichTime ql (enrichDefaults p))))

/- remote planner adapter, from `src/llm_router.py` -/

/-- JSON whitespace skip. -/
def jWs (l : List Char) : List Char :=
  l.dropWhile (fun c => c = ' ' || c = '\n' || c = '\t' || c = '\r')

/-- read a JSON string body after the opening quote; returns the decoded
characters and the rest after the closing quote.  The unusual escapes
(`\uXXXX`) are outside the model. -/
def jReadStr : Nat → List Char → Option (List Char × List Char)
  | 0, _ => none
  | _ + 1, [] => none
  | fuel + 1, c :: cs =>
    if c = '"' then some ([], cs)
    else if c = '\\' then
      match cs with
      | '"' :: r => (jReadStr fuel r).map (fun p => ('"' :: p.1, p.2))
      | '\\' :: r => (jReadStr fuel r).map (fun p => ('\\' :: p.1, p.2))
      | '/' :: r => (jReadStr fuel r).map (fun p => ('/' :: p.1, p.2))
      | 'n' :: r => (jReadStr fuel r).map (fun p => ('\n' :: p.1, p.2))
      | 't' :: r => (jReadStr fuel r).map (fun p => ('\t' :: p.1, p.2))
      | 'r' :: r => (jReadStr fuel r).map (fun p => ('\r' :: p.1, p.2))
      | 'b' :: r => (jReadStr fuel r).map (fun p => (Char.ofNat 8 :: p.1, p.2))
      | 'f' :: r => (jReadStr fuel r).map (fun p => (Char.ofNat 12 :: p.1, p.2))
      | _ => none
    else (jReadStr fuel cs).map (fun p => (c :: p.1, p.2))

/-- read a JSON number (integer numerals only; a fractional or exponent
part is outside the model and fails the parse). -/
def jNum (l : List Char) : Option (PyVal × List Char) :=
  let negRest : Bool × List Char := match l with
    | '-' :: r => (true, r)
    | _ => (false, l)
  let ds := negRest.2.takeWhile Char.isDigit
  if ds.isEmpty then none
  else
    let rest := negRest.2.dropWhile Char.isDigit
    match rest with
    | '.' :: _ => none
    | 'e' :: _ => none
    | 'E' :: _ => none
    | _ => (digitsVal ds).map (fun n => (.vint (if negRest.1 then -n else n), rest))

mutual

/-- recursive-descent JSON value parser (model of `json.loads`). -/
def jVal : Nat → List Char → Option (PyVal × List Char)
  | 0, _ => none
  | fuel + 1, l =>
    match jWs l with
    | [] => none
    | '{' :: r => jObj fuel (jWs r) []
    | '[' :: r => jArr fuel (jWs r) []
    | '"' :: r => (jReadStr (r.length + 1) r).map (fun p => (.vstr ⟨p.1⟩, p.2))
    | 't' :: r => if isPre "rue".data r then some (.vbool true, r.drop 3) else none
    | 'f' :: r => if isPre "alse".data r then some (.vbool false, r.drop 4) else none
    | 'n' :: r => if isPre "ull".data r then some (.vnone, r.drop 3) else none
    | l' => jNum l'

/-- object members; called just after `{` (with `acc = []`) or after a `,`. -/
def jObj : Nat → List Char → List (String × PyVal) →
    Option (PyVal × List Char)
  | 0, _, _ => none
  | fuel + 1, l, acc =>
    match l with
    | '}' :: r => if acc.isEmpty then some (.vdict [], r) else none
    | '"' :: r =>
      match jReadStr (r.length + 1) r with
      | none => none
      | some (k, r2) =>
        match jWs r2 with
        | ':' :: r3 =>
          match jVal fuel r3 with
          | none => none
          | some (v, r4) =>
            let acc2 := acc ++ [(⟨k⟩, v)]
            match jWs r4 with
            | ',' :: r5 => jObj fuel (jWs r5) acc2
            | '}' :: r5 => some (.vdict acc2, r5)
            | _ => none
        | _ => none
    | _ => none

/-- array elements; called just after `[` (with `acc = []`) or after a `,`. -/
def jArr : Nat → List Char → List PyVal → Option (PyVal × List Char)
  | 0, _, _ => none
  | fuel + 1, l, acc =>
    match l with
    | ']' :: r => if acc.isEmpty then some (.vlist [], r) else none
    | _ =>
      match jVal fuel l with
      | none => none
      | some (v, r2) =>
        let acc2 := acc ++ [v]
        match jWs r2 with
        | ',' :: r3 => jArr fuel r3 acc2
        | ']' :: r3 => some (.vlist acc2, r3)
        | _ => none

end

/-- `json.loads` on a whole document: trailing garbage is a parse error. -/
def jsonLoads (s : String) : Option PyVal :=
  match jVal (s.data.length + 1) s.data with
  | some (v, rest) => if (jWs rest).isEmpty then some v else none
  | none => none

def natCharsGo : Nat → Nat → List Char → List Char
  | 0, _, acc => acc
  | fuel + 1, n, acc =>
    if n < 10 then Char.ofNat (48 + n) :: acc
    else natCharsGo fuel (n / 10) (Char.ofNat (48 + n % 10) :: acc)

def natChars (n : Nat) : List Char := natCharsGo (n + 1) n []

def intChars (n : Int) : List Char :=
  if n < 0 then '-' :: natChars (-n).toNat else natChars n.toNat

def jEscape : List Char → List Char
  | [] => []
  | c :: cs =>
    (if c = '"' then ['\\', '"'] else if c = '\\' then ['\\', '\\'] else [c])
      ++ jEscape cs

/-- `json.dumps` with the default separators (depth-fuelled; only its
substring content matters, for the 400-error marker check). -/
def jDump : Nat → PyVal → List Char
  | 0, _ => []
  | _ + 1, .vnone => "null".data
  | _ + 1, .vbool true => "true".data
  | _ + 1, .vbool false => "false".data
  | _ + 1, .vint n => intChars n
  | _ + 1, .vdate d => intChars d
  | _ + 1, .vstr s => '"' :: (jEscape s.data ++ ['"'])
  | fuel + 1, .vlist xs =>
    '[' :: ((xs.map (jDump fuel)).intersperse ", ".data).flatten ++ [']']
  | fuel + 1, .vdict kvs =>
    '{' :: ((kvs.map (fun p =>
        '"' :: (jEscape p.1.data ++ ['"', ':', ' '] ++ jDump fuel p.2))).intersperse
          ", ".data).flatten ++ ['}']

def jsonDumps (v : PyVal) : String := ⟨jDump 1000 v⟩

/-- `_strip_code_fences` of `src/llm_router.py`. -/
def strip_code_fences (s : String) : String :=
  let t0 := trimChars s.data
  let t1 :=
    if isPre "```".data t0 then
      let a := ((t0.drop 3).dropWhile
        (fun c => c.isAlphanum || c = '_' || c = '-')).dropWhile Char.isWhitespace
      let ra := a.reverse
      if isPre "```".data ra then ((ra.drop 3).dropWhile Char.isWhitespace).reverse
      else a
    else t0
  ⟨trimChars t1⟩

/-- `_normalize_quotes` of `src/llm_router.py`. -/
def normalize_quotes (s : String) : String :=
  ⟨s.data.map (fun c =>
    if c = '“' ∨ c = '”' then '"'
    else if c = '‘' ∨ c = '’' then '\'' else c)⟩

/-- single left-to-right pass of `re.sub(r",\s*([}\]])", r"\1", text)`. -/
def rtcGo : Nat → List Char → List Char
  | 0, l => l
  | _ + 1, [] => []
  | fuel + 1, c :: cs =>
    if c = ',' then
      match cs.dropWhile Char.isWhitespace with
      | b :: rest =>
        if b = '}' ∨ b = ']' then b :: rtcGo fuel rest
        else c :: rtcGo fuel cs
      | [] => c :: rtcGo fuel cs
    else c :: rtcGo fuel cs

/-- `_remove_trailing_commas` of `src/llm_router.py`. -/
def remove_trailing_commas (s : String) : String :=
  ⟨rtcGo (s.data.length + 1) s.data⟩

/-- loop body of `_extract_json_object`: walks from the first `{`,
tracking brace depth and string state.  (In the source the escape flag
can never be set: the comparison is against a two-character literal, so
the branch is dead and is omitted here.) -/
def ejoGo : Nat → Int → Bool → List Char → List Char → Option (List Char)
  | 0, _, _, _, _ => none
  | _ + 1, _, _, _, [] => none
  | fuel + 1, depth, inStr, acc, c :: rest =>
    let acc2 := acc ++ [c]
    if inStr then
      if c = '"' then ejoGo fuel depth false acc2 rest
      else ejoGo fuel depth true acc2 rest
    else
      if c = '"' then ejoGo fuel depth true acc2 rest
      else if c = '{' then ejoGo fuel (depth + 1) false acc2 rest
      else if c = '}' then
        if depth - 1 = 0 then some acc2
        else ejoGo fuel (depth - 1) false acc2 rest
      else ejoGo fuel depth false acc2 rest

/-- `_extract_json_object` of `src/llm_router.py`. -/
def extract_json_object (s : String) : String :=
  let l := s.data
  let pre := l.takeWhile (fun c => !(c = '{'))
  let post := l.drop pre.length
  if post.isEmpty then s
  else
    match ejoGo (post.length + 1) 0 false [] post with
    | some obj => ⟨obj⟩
    | none => s

/-- `_coerce_to_json_dict_or_none` of `src/llm_router.py`. -/
def coerce_to_json_dict_or_none (content : String) :
    Option (List (String × PyVal)) :=
  match jsonLoads content with
  | some (.vdict kvs) => some kvs
  | some _ => none
  | none =>
    let txt := normalize_quotes (strip_code_fences content)
    let cand := remove_trailing_commas (extract_json_object txt)
    match jsonLoads cand with
    | some (.vdict kvs) => some kvs
    | _ => none

def strNonEmptyTrim (s : String) : Bool := !(trimChars s.data).isEmpty

def msgReason (mk : List (String × PyVal)) : Option String :=
  match dGetD mk "reasoning_content" .vnone with
  | .vstr s => if strNonEmptyTrim s then some s else none
  | _ => none

def msgContent (mk : List (String × PyVal)) : Option String :=
  match dGetD mk "content" .vnone with
  | .vstr s => if strNonEmptyTrim s then some s else msgReason mk
  | _ => msgReason mk

def genTextField (fk : List (String × PyVal)) : Option String :=
  match dGetD fk "generated_text" .vnone with
  | .vstr s => if strNonEmptyTrim s then some s else none
  | _ => none

def msgField (fk : List (String × PyVal)) : Option String :=
  match dGetD fk "message" .vnone with
  | .vdict mk => msgContent mk
  | _ => none

def contentFromFirst (fk : List (String × PyVal)) : Option String :=
  match dGetD fk "text" .vnone with
  | .vstr s =>
    if strNonEmptyTrim s then some s
    else match msgField fk with
      | some c => some c
      | none => genTextField fk
  | _ =>
    match msgField fk with
    | some c => some c
    | none => genTextField fk

/-- `_extract_content_from_chat` of `src/llm_router.py`; `data.get` on a
non-dict payload, and subscripting/`.get` on ill-shaped members, raise. -/
def extract_content_from_chat (data : PyVal) : Except PyExc (Option String) :=
  match data with
  | .vdict kvs =>
    let choicesRaw := dGetD kvs "choices" .vnone
    let choices := if pyFalsy choicesRaw then .vlist [] else choicesRaw
    if pyFalsy choices then .ok none
    else
      match choices with
      | .vlist (first :: _) =>
        match first with
        | .vdict fk => .ok (contentFromFirst fk)
        | _ => .error .attributeError
      | _ => .error .typeError
  | _ => .error .attributeError

/-- `_extract_content_from_completions` of `src/llm_router.py`. -/
def extract_content_from_completions (data : PyVal) :
    Except PyExc (Option String) :=
  match data with
  | .vdict kvs =>
    let choicesRaw := dGetD kvs "choices" .vnone
    let choices := if pyFalsy choicesRaw then .vlist [] else choicesRaw
    if pyFalsy choices then .ok none
    else
      match choices with
      | .vlist (first :: _) =>
        match first with
        | .vdict fk =>
          match dGetD fk "text" .vnone with
          | .vstr s => .ok (if strNonEmptyTrim s then some s else none)
          | _ => .ok none
        | _ => .error .attributeError
      | _ => .error .typeError
  | _ => .error .attributeError

/-- The outcome of one `requests.post` call: an exception from `requests`
(timeout or transport error), or a response with an HTTP status, a body
that may or may not parse as JSON (`resp.json()` raises when it does
not), and the raw `resp.text`. -/
inductive CallRes where
  | exc : CallRes
  | resp (status : Nat) (body : Option PyVal) (text : String) : CallRes

/-- The remote service's behaviour for one adapter invocation: the
outcome of the chat call and (if made) of the completions call. -/
structure RouterEnv where
  chat : CallRes
  compl : CallRes

/-- the `"not a chat model" / "model_not_supported" / "response_format"`
marker check on the 400 error body. -/
def markerCond (body : Option PyVal) (text : String) : Bool :=
  let errStr := match body with
    | some j => jsonDumps j
    | none => text
  let low := sLower errStr
  strContains low "not a chat model" || strContains low "model_not_supported"
    || strContains low "response_format"

/-- the completions retry taken from the 400-marker branch. -/
def completionsRetry (query : String) : CallRes →
    Except PyExc (List (String × PyVal))
  | .exc => .error .requestException
  | .resp st2 body2 _ =>
    if 400 ≤ st2 then .ok (build_heuristic_plan query)
    else
      match body2 with
      | none => .error .jsonDecodeError
      | some d2 =>
        match extract_content_from_completions d2 with
        | .error e => .error e
        | .ok none => .ok (build_heuristic_plan query)
        | .ok (some c2) =>
          match coerce_to_json_dict_or_none c2 with
          | some p => .ok p
          | none => .ok (build_heuristic_plan query)

/-- the completions attempt taken when the chat reply had no content. -/
def completionsSecondTry (query : String) : CallRes →
    Except PyExc (List (String × PyVal))
  | .exc => .error .requestException
  | .resp st2 body2 _ =>
    if st2 < 400 then
      match body2 with
      | none => .error .jsonDecodeError
      | some d2 =>
        match extract_content_from_completions d2 with
        | .error e => .error e
        | .ok (some c2) =>
          match coerce_to_json_dict_or_none c2 with
          | some p => .ok p
          | none => .ok (build_heuristic_plan query)
        | .ok none => .ok (build_heuristic_plan query)
    else .ok (build_heuristic_plan query)

/-- `llm_plan_via_hf_router` of `src/llm_router.py`.  The `requests.post`
calls have no surrounding `try`, so a raised timeout/transport error
(`CallRes.exc`) propagates, as does `resp.json()` on a success-status
body that is not JSON. -/
def llm_plan_via_hf_router (query : String) (env : RouterEnv) :
    Except PyExc (List (String × PyVal)) :=
  match env.chat with
  | .exc => .error .requestException
  | .resp st body text =>
    if st = 400 ∧ markerCond body text then completionsRetry query env.compl
    else if 400 ≤ st then .ok (build_heuristic_plan query)
    else
      match body with
      | none => .error .jsonDecodeError
      | some data =>
        match extract_content_from_chat data with
        | .error e => .error e
        | .ok (some content) =>
          match coerce_to_json_dict_or_none content with
          | some plan => .ok plan
          | none => .ok (build_heuristic_plan query)
        | .ok none => completionsSecondTry query env.compl

/- concrete fixtures used by the claim theorems and witnesses -/

/-- a shipment row carrying exactly the required columns, with a stale
`po_date` (2020-01-01, day 18262). -/
def c1row : List (String × PyVal) :=
  [("po_number", .vstr "PO1"), ("supplier", .vstr "Acme"),
   ("origin_country", .vstr "CN"), ("destination_country", .vstr "IN"),
   ("lane", .vstr "CN->IN"), ("mode", .vstr "Air"), ("incoterm", .vstr "FOB"),
   ("status", .vstr "Delivered"), ("quantity", .vint 10),
   ("unit_price", .vint 5), ("freight_cost", .vint 2), ("duty_cost", .vint 1),
   ("shipment_id", .vstr "S1"), ("po_date", .vdate 18262),
   ("planned_ship_date", .vdate 18270), ("actual_ship_date", .vdate 18272),
   ("planned_eta", .vdate 18300), ("actual_eta", .vdate 18301)]

def c1df : DFrame := ⟨EXPECTED_COLS, [c1row]⟩

def c1plan : List (String × PyVal) :=
  [("time_range", .vdict [("type", .vstr "last_n_days"), ("n", .vint 30)])]

/-- a frame that does carry one of the executor's recognized timestamp
columns, for the clock-dependence counterexample. -/
def c7df : DFrame := ⟨["date"], [[("date", .vdate 100)]]⟩

def c7plan : List (String × PyVal) :=
  [("time_range", .vdict [("type", .vstr "last_n_days"), ("n", .vint 1)])]

/-- two groups with equal aggregates; `beta` appears first in the data,
`alpha` is alphabetically smaller. -/
def c6df : DFrame :=
  ⟨["supplier", "total_landed_cost"],
   [[("supplier", .vstr "beta"), ("total_landed_cost", .vint 10)],
    [("supplier", .vstr "alpha"), ("total_landed_cost", .vint 10)]]⟩

def c6limit : PyVal :=
  .vdict [("dimension", .vstr "supplier"), ("n", .vint 1), ("metric", .vstr "spend")]

/-- row extension: every binding of `r` survives into `r'`. -/
def rowExt (r r' : List (String × PyVal)) : Prop :=
  ∀ k v, dLookup k r = some v → dLookup k r' = some v

/-- dimension-column scalar shape check used by the C6 hypotheses. -/
def isStrOrNone : PyVal → Bool
  | .vstr _ => true
  | .vnone => true
  | _ => false

/-- input frame for the derived-feature witnesses. -/
def c45df : DFrame :=
  ⟨["status", "quantity", "unit_price", "freight_cost", "duty_cost",
    "po_date", "planned_ship_date", "actual_ship_date", "planned_eta", "actual_eta"],
   [[("status", .vstr "Delivered"), ("quantity", .vint 10), ("unit_price", .vint 5),
     ("freight_cost", .vint 2), ("duty_cost", .vint 1), ("po_date", .vdate 100),
     ("planned_ship_date", .vdate 105), ("actual_ship_date", .vdate 106),
     ("planned_eta", .vdate 120), ("actual_eta", .vdate 118)]]⟩

def c45row : List (String × PyVal) := (derive_features 50 c45df).rows.headD []

/-- the enriched plan of the C8 witness question, as the enrichment
produces it from an empty payload. -/
def c8q : String := "show risky shipments last 30 days"

def c8plan1 : List (String × PyVal) :=
  match enrich_plan c8q [] with
  | .ok p => p
  | .error _ => []

/-- frame and question for the C10 theorems. -/
def c10df : DFrame :=
  ⟨["po_date"], [[("po_date", .vdate 18750)], [("po_date", .vnone)]]⟩

def c10text : String := "show stuff from last 2 days"

def c10textBetween : String := "between 2020-01-01 and 2020-01-05 last 2 days"

/- claim theorems and their supporting lemmas -/

theorem dLookup_append_some {k : String} {r1 r2 : List (String × PyVal)}
    {v : PyVal} (h : dLookup k r1 = some v) :
    dLookup k (r1 ++ r2) = some v := by
  induction r1 with
  | nil => simp [dLookup] at h
  | cons x xs ih =>
    obtain ⟨c, w⟩ := x
    by_cases hc : c = k
    · simp [dLookup, hc] at h ⊢
      exact h
    · simp [dLookup, hc] at h ⊢
      exact ih h

theorem dLookup_append_none {k : String} {r1 : List (String × PyVal)}
    (r2 : List (String × PyVal)) (h : dLookup k r1 = none) :
    dLookup k (r1 ++ r2) = dLookup k r2 := by
  induction r1 with
  | nil => simp
  | cons x xs ih =>
    obtain ⟨c, w⟩ := x
    by_cases hc : c = k
    · simp [dLookup, hc] at h
    · simp [dLookup, hc] at h ⊢
      exact ih h

theorem dLookup_isSome_iff {k : String} {r : List (String × PyVal)} :
    (dLookup k r).isSome ↔ k ∈ r.map Prod.fst := by
  induction r with
  | nil => simp [dLookup]
  | cons x xs ih =>
    obtain ⟨c, w⟩ := x
    by_cases hc : c = k
    · simp [dLookup, hc]
    · simp [dLookup, hc, ih, Ne.symm hc]

theorem dLookup_eq_none_of_not_mem {k : String} {r : List (String × PyVal)}
    (h : k ∉ r.map Prod.fst) : dLookup k r = none := by
  cases hl : dLookup k r with
  | none => rfl
  | some v =>
    exact absurd (dLookup_isSome_iff.mp (by simp [hl])) h

theorem rowExt_refl (r : List (String × PyVal)) : rowExt r r :=
  fun _ _ h => h

theorem rowExt_trans {a b c : List (String × PyVal)}
    (h1 : rowExt a b) (h2 : rowExt b c) : rowExt a c :=
  fun k v h => h2 k v (h1 k v h)

theorem rowExt_append (r s : List (String × PyVal)) : rowExt r (r ++ s) :=
  fun _ _ h => dLookup_append_some h

theorem cell_of_rowExt {r r' : List (String × PyVal)} {k : String}
    (h : rowExt r r') (hs : (dLookup k r).isSome) : cell r' k = cell r k := by
  obtain ⟨v, hv⟩ := Option.isSome_iff_exists.mp hs
  simp [cell, hv, h k v hv]

theorem mem_rows_addColIfAbsent {df : DFrame} {name : String}
    {f : List (String × PyVal) → PyVal} {r' : List (String × PyVal)}
    (h : r' ∈ (addColIfAbsent df name f).rows) :
    ∃ r ∈ df.rows, rowExt r r' := by
  unfold addColIfAbsent at h
  split at h
  · exact ⟨r', h, rowExt_refl r'⟩
  · simp only [addCol, List.mem_map] at h
    obtain ⟨r, hr, hr'⟩ := h
    exact ⟨r, hr, hr' ▸ rowExt_append r _⟩

theorem cols_addColIfAbsent_mem {df : DFrame} {name c : String}
    {f : List (String × PyVal) → PyVal}
    (h : c ∈ (addColIfAbsent df name f).cols) : c ∈ df.cols ∨ c = name := by
  unfold addColIfAbsent at h
  split at h
  · exact .inl h
  · simp only [addCol, List.mem_append, List.mem_singleton] at h
    exact h

/-- Claim C1 (code evaluation at the failing input): on a dataset carrying
exactly the required shipment columns, a `last_n_days` plan filters
nothing at all — `_apply_time_range` looks only for
`created_at`/`shipment_date`/`eta`/`updated_at`/`date`, none of which is a
shipment-schema column, so the stale row (po_date 2020-01-01, far older
than `now − 30 days`) is returned rather than excluded. -/
theorem c1_time_range_is_noop_on_shipment_schema :
    apply_llm_plan 20000 c1df c1df c1plan = .ok c1df
      ∧ toDT (cell c1row "po_date") = some 18262
      ∧ (18262 : Int) < 20000 - 30 := by
  refine ⟨rfl, rfl, by decide⟩

/-- Claim C9 (counterexample): the question contains the mode keyword
`air`, yet the heuristic plan's filters carry no `mode` key at all
(only `status` is set, from `delayed`). -/
theorem c9_no_mode_filter_counterexample :
    (match dLookup "filters"
        (build_heuristic_plan "show delayed air shipments from cn last 30 days") with
      | some (.vdict kvs) => dLookup "mode" kvs
      | _ => some .vnone) = none
      ∧ strContains (sLower "show delayed air shipments from cn last 30 days") "air"
          = true := by
  exact ⟨rfl, rfl⟩

/-- Claim C9 (amended): `build_heuristic_plan` never sets `filters.mode`
for any question; its filter keys are only ever `status` and `supplier`
(mode keywords are handled by the fallback prompt parser of `src/nlq.py`,
not by the heuristic planner). -/
theorem c9_build_heuristic_plan_never_sets_mode (q : String) :
    ∃ kvs, dLookup "filters" (build_heuristic_plan q) = some (.vdict kvs)
      ∧ dLookup "mode" kvs = none := by
  by_cases hs : (STATUS_SYNONYMS_DELAYED.any fun w => strContains (sLower q) w) = true
  · cases hsup : supplierSearch (sLower q).data with
    | none =>
      exact ⟨[("status", .vstr "Delayed")],
        by simp [build_heuristic_plan, dLookup, hs, hsup], rfl⟩
    | some g =>
      exact ⟨[("status", .vstr "Delayed"),
          ("supplier", .vstr ⟨titleChars false (trimChars g)⟩)],
        by simp [build_heuristic_plan, dLookup, hs, hsup], rfl⟩
  · cases hsup : supplierSearch (sLower q).data with
    | none =>
      exact ⟨[], by simp [build_heuristic_plan, dLookup, hs, hsup], rfl⟩
    | some g =>
      exact ⟨[("supplier", .vstr ⟨titleChars false (trimChars g)⟩)],
        by simp [build_heuristic_plan, dLookup, hs, hsup], rfl⟩

/-- Claim C2 (counterexample): a timeout / transport error raised by
`requests.post` is not caught inside `llm_plan_via_hf_router` — it
propagates to the caller instead of resolving to a heuristic plan
(`app.py` catches it and routes to the fallback prompt parser). -/
theorem c2_timeout_propagates_counterexample :
    llm_plan_via_hf_router "show delayed shipments" ⟨.exc, .exc⟩
      = .error .requestException := rfl

/-- Claim C2 (amended): whenever the chat call completes with any
non-success status of 401 or above, the adapter returns exactly the
heuristic plan, without raising, whatever the response body or the
completions behaviour; it is the timeout/transport-error case (and a
non-JSON body on a success status) that raises. -/
theorem c2_non_success_status_falls_back (q : String) (st : Nat)
    (b : Option PyVal) (t : String) (c2 : CallRes) (h : 401 ≤ st) :
    llm_plan_via_hf_router q ⟨.resp st b t, c2⟩ = .ok (build_heuristic_plan q) := by
  have h400 : ¬(st = 400 ∧ markerCond b t = true) := by
    rintro ⟨he, -⟩
    omega
  simp only [llm_plan_via_hf_router]
  rw [if_neg (by simpa using h400), if_pos (by omega)]

theorem c2_non_success_status_falls_back_witness :
    llm_plan_via_hf_router "top 5 suppliers by spend" ⟨.resp 503 none "boom", .exc⟩
      = .ok (build_heuristic_plan "top 5 suppliers by spend") :=
  c2_non_success_status_falls_back "top 5 suppliers by spend" 503 none "boom" .exc
    (by decide)


/-- Claim C4: when `po_value` and `total_landed_cost` are not already
supplied and the numeric source columns are present, every output row of
`derive_features` satisfies `po_value = quantity * unit_price` and
`total_landed_cost = po_value + freight_cost + duty_cost` (with pandas
`NaN` propagation on non-numeric cells). -/
theorem c4_derived_cost_columns (today : Int) (df : DFrame) (hwf : DWF df)
    (hq : "quantity" ∈ df.cols) (hu : "unit_price" ∈ df.cols)
    (hfr : "freight_cost" ∈ df.cols) (hdu : "duty_cost" ∈ df.cols)
    (hpo : "po_value" ∉ df.cols) (htlc : "total_landed_cost" ∉ df.cols) :
    ∀ r' ∈ (derive_features today df).rows,
      cell r' "po_value" = pvMul (cell r' "quantity") (cell r' "unit_price")
        ∧ cell r' "total_landed_cost" =
            pvAdd (pvAdd (cell r' "po_value") (cell r' "freight_cost"))
              (cell r' "duty_cost") := by
  intro r' hr'
  simp only [derive_features] at hr'
  -- peel the five later stages down to the frame after the two cost columns
  obtain ⟨r6, hr6, he6⟩ := mem_rows_addColIfAbsent hr'
  obtain ⟨r5, hr5, he5⟩ := mem_rows_addColIfAbsent hr6
  obtain ⟨r4, hr4, he4⟩ := mem_rows_addColIfAbsent hr5
  obtain ⟨r3, hr3, he3⟩ := mem_rows_addColIfAbsent hr4
  obtain ⟨r2, hr2, he2⟩ := mem_rows_addColIfAbsent hr3
  have hext : rowExt r2 r' :=
    rowExt_trans he2 (rowExt_trans he3 (rowExt_trans he4 (rowExt_trans he5 he6)))
  -- the two cost stages really fire
  have h1 : addColIfAbsent df "po_value"
      (fun r => pvMul (cell r "quantity") (cell r "unit_price")) =
      addCol df "po_value" (fun r => pvMul (cell r "quantity") (cell r "unit_price")) := by
    unfold addColIfAbsent
    exact if_neg hpo
  have htlc1 : "total_landed_cost" ∉ df.cols ++ ["po_value"] := by
    simp [htlc]
  rw [h1] at hr2
  have h2 : addColIfAbsent (addCol df "po_value"
        (fun r => pvMul (cell r "quantity") (cell r "unit_price")))
        "total_landed_cost"
        (fun r => pvAdd (pvAdd (cell r "po_value") (cell r "freight_cost"))
          (cell r "duty_cost")) =
      addCol (addCol df "po_value"
        (fun r => pvMul (cell r "quantity") (cell r "unit_price")))
        "total_landed_cost"
        (fun r => pvAdd (pvAdd (cell r "po_value") (cell r "freight_cost"))
          (cell r "duty_cost")) := by
    unfold addColIfAbsent
    exact if_neg htlc1
  rw [h2] at hr2
  -- expose the underlying original row
  simp only [addCol, List.mem_map] at hr2
  obtain ⟨r1, ⟨r0, hm0, he0⟩, he1⟩ := hr2
  have hkeys0 : r0.map Prod.fst = df.cols := hwf r0 hm0
  have hsq : (dLookup "quantity" r0).isSome := dLookup_isSome_iff.mpr (hkeys0 ▸ hq)
  have hsu : (dLookup "unit_price" r0).isSome := dLookup_isSome_iff.mpr (hkeys0 ▸ hu)
  have hsf : (dLookup "freight_cost" r0).isSome := dLookup_isSome_iff.mpr (hkeys0 ▸ hfr)
  have hsd : (dLookup "duty_cost" r0).isSome := dLookup_isSome_iff.mpr (hkeys0 ▸ hdu)
  have hnp : dLookup "po_value" r0 = none :=
    dLookup_eq_none_of_not_mem (hkeys0 ▸ hpo)
  subst he0
  set r1' := r0 ++ [("po_value", pvMul (cell r0 "quantity") (cell r0 "unit_price"))]
    with hr1'
  have cpo1 : cell r1' "po_value" = pvMul (cell r0 "quantity") (cell r0 "unit_price") := by
    simp [cell, hr1', dLookup_append_none _ hnp, dLookup]
  have cq1 : cell r1' "quantity" = cell r0 "quantity" :=
    cell_of_rowExt (rowExt_append _ _) hsq
  have cu1 : cell r1' "unit_price" = cell r0 "unit_price" :=
    cell_of_rowExt (rowExt_append _ _) hsu
  have cf1 : cell r1' "freight_cost" = cell r0 "freight_cost" :=
    cell_of_rowExt (rowExt_append _ _) hsf
  have cd1 : cell r1' "duty_cost" = cell r0 "duty_cost" :=
    cell_of_rowExt (rowExt_append _ _) hsd
  have hkeys1 : r1'.map Prod.fst = df.cols ++ ["po_value"] := by
    simp [hr1', hkeys0]
  have hspo1 : (dLookup "po_value" r1').isSome :=
    dLookup_isSome_iff.mpr (by simp [hkeys1])
  have hsq1 : (dLookup "quantity" r1').isSome :=
    dLookup_isSome_iff.mpr (by simp [hkeys1, hq])
  have hsu1 : (dLookup "unit_price" r1').isSome :=
    dLookup_isSome_iff.mpr (by simp [hkeys1, hu])
  have hsf1 : (dLookup "freight_cost" r1').isSome :=
    dLookup_isSome_iff.mpr (by simp [hkeys1, hfr])
  have hsd1 : (dLookup "duty_cost" r1').isSome :=
    dLookup_isSome_iff.mpr (by simp [hkeys1, hdu])
  have hntlc1 : dLookup "total_landed_cost" r1' = none :=
    dLookup_eq_none_of_not_mem (by rw [hkeys1]; exact htlc1)
  subst he1
  set r2' := r1' ++ [("total_landed_cost",
    pvAdd (pvAdd (cell r1' "po_value") (cell r1' "freight_cost"))
      (cell r1' "duty_cost"))] with hr2'
  have ctlc2 : cell r2' "total_landed_cost" =
      pvAdd (pvAdd (cell r1' "po_value") (cell r1' "freight_cost"))
        (cell r1' "duty_cost") := by
    simp [cell, hr2', dLookup_append_none _ hntlc1, dLookup]
  have cpo2 : cell r2' "po_value" = cell r1' "po_value" :=
    cell_of_rowExt (rowExt_append _ _) hspo1
  have cq2 : cell r2' "quantity" = cell r1' "quantity" :=
    cell_of_rowExt (rowExt_append _ _) hsq1
  have cu2 : cell r2' "unit_price" = cell r1' "unit_price" :=
    cell_of_rowExt (rowExt_append _ _) hsu1
  have cf2 : cell r2' "freight_cost" = cell r1' "freight_cost" :=
    cell_of_rowExt (rowExt_append _ _) hsf1
  have cd2 : cell r2' "duty_cost" = cell r1' "duty_cost" :=
    cell_of_rowExt (rowExt_append _ _) hsd1
  have hkeys2 : r2'.map Prod.fst = (df.cols ++ ["po_value"]) ++ ["total_landed_cost"] := by
    simp [hr2', hkeys1]
  have mem2 : ∀ c : String,
      c ∈ df.cols ∨ c = "po_value" ∨ c = "total_landed_cost" →
      (dLookup c r2').isSome := by
    intro c hc
    refine dLookup_isSome_iff.mpr ?_
    rw [hkeys2]
    rcases hc with h | h | h <;> simp [h]
  have cq' : cell r' "quantity" = cell r2' "quantity" :=
    cell_of_rowExt hext (mem2 _ (.inl hq))
  have cu' : cell r' "unit_price" = cell r2' "unit_price" :=
    cell_of_rowExt hext (mem2 _ (.inl hu))
  have cf' : cell r' "freight_cost" = cell r2' "freight_cost" :=
    cell_of_rowExt hext (mem2 _ (.inl hfr))
  have cd' : cell r' "duty_cost" = cell r2' "duty_cost" :=
    cell_of_rowExt hext (mem2 _ (.inl hdu))
  have cpo' : cell r' "po_value" = cell r2' "po_value" :=
    cell_of_rowExt hext (mem2 _ (.inr (.inl rfl)))
  have ctlc' : cell r' "total_landed_cost" = cell r2' "total_landed_cost" :=
    cell_of_rowExt hext (mem2 _ (.inr (.inr rfl)))
  constructor
  · rw [cpo', cpo2, cpo1, cq', cq2, cq1, cu', cu2, cu1]
  · rw [ctlc', ctlc2, cpo', cpo2, cf', cf2, cd', cd2]

theorem c4_derived_cost_columns_witness :
    cell c45row "po_value" = pvMul (cell c45row "quantity") (cell c45row "unit_price")
      ∧ cell c45row "total_landed_cost" =
          pvAdd (pvAdd (cell c45row "po_value") (cell c45row "freight_cost"))
            (cell c45row "duty_cost") :=
  c4_derived_cost_columns 50 c45df
    (by intro r hr; fin_cases hr; rfl)
    (by decide) (by decide) (by decide) (by decide) (by decide) (by decide)
    c45row (show c45row ∈ [c45row] from List.mem_singleton_self _)

theorem pyEqB_vstr_iff (v : PyVal) (t : String) :
    pyEqB v (.vstr t) = true ↔ v = .vstr t := by
  cases v <;> simp [pyEqB]

theorem DWF_addColIfAbsent {df : DFrame} {n : String}
    {f : List (String × PyVal) → PyVal} (h : DWF df) :
    DWF (addColIfAbsent df n f) := by
  unfold addColIfAbsent
  split
  · exact h
  · intro r hr
    simp only [addCol, List.mem_map] at hr
    obtain ⟨r0, h0, rfl⟩ := hr
    simp [addCol, h r0 h0]

theorem cols_addColIfAbsent_superset {df : DFrame} {n c : String}
    {f : List (String × PyVal) → PyVal} (h : c ∈ df.cols) :
    c ∈ (addColIfAbsent df n f).cols := by
  unfold addColIfAbsent
  split
  · exact h
  · simp [addCol, h]

/-- Claim C5: when `on_time` is not already supplied, `derive_features`
sets it to 1 exactly when the status is `Delivered` and the parsed
`actual_eta` is at or before the parsed `planned_eta`, and to 0 in every
other case — in particular on every row where either eta is null
(`dtLeB` is the `NaT`-rejecting comparison). -/
theorem c5_on_time_iff (today : Int) (df : DFrame) (hwf : DWF df)
    (hst : "status" ∈ df.cols) (hae : "actual_eta" ∈ df.cols)
    (hpe : "planned_eta" ∈ df.cols) (hot : "on_time" ∉ df.cols) :
    ∀ r' ∈ (derive_features today df).rows,
      (cell r' "on_time" = .vint 1 ↔
        (cell r' "status" = .vstr "Delivered"
          ∧ dtLeB (toDT (cell r' "actual_eta")) (toDT (cell r' "planned_eta")) = true))
        ∧ (cell r' "on_time" = .vint 0 ∨ cell r' "on_time" = .vint 1)
        ∧ ((toDT (cell r' "actual_eta") = none ∨ toDT (cell r' "planned_eta") = none)
            → cell r' "on_time" = .vint 0) := by
  intro r' hr'
  simp only [derive_features] at hr'
  -- names of the frames up to the on_time stage
  have step : ∀ {d : DFrame} {n : String} {f : List (String × PyVal) → PyVal},
      "on_time" ∉ d.cols → "on_time" ≠ n → "on_time" ∉ (addColIfAbsent d n f).cols :=
    fun hd hn h => (cols_addColIfAbsent_mem h).elim hd hn
  have h5 : "on_time" ∉ (addColIfAbsent (addColIfAbsent (addColIfAbsent
      (addColIfAbsent (addColIfAbsent df "po_value"
        (fun r => pvMul (cell r "quantity") (cell r "unit_price")))
        "total_landed_cost"
        (fun r => pvAdd (pvAdd (cell r "po_value") (cell r "freight_cost"))
          (cell r "duty_cost")))
        "lead_time_days"
        (fun r => pvDaysDiff (cell r "actual_ship_date") (cell r "po_date")))
        "transit_time_days"
        (fun r => pvDaysDiff (cell r "actual_eta") (cell r "actual_ship_date")))
        "delay_days_vs_planned_eta"
        (fun r => pvDaysDiff (cell r "actual_eta") (cell r "planned_eta"))).cols :=
    step (step (step (step (step hot (by decide)) (by decide)) (by decide))
      (by decide)) (by decide)
  have hwf5 : DWF (addColIfAbsent (addColIfAbsent (addColIfAbsent
      (addColIfAbsent (addColIfAbsent df "po_value"
        (fun r => pvMul (cell r "quantity") (cell r "unit_price")))
        "total_landed_cost"
        (fun r => pvAdd (pvAdd (cell r "po_value") (cell r "freight_cost"))
          (cell r "duty_cost")))
        "lead_time_days"
        (fun r => pvDaysDiff (cell r "actual_ship_date") (cell r "po_date")))
        "transit_time_days"
        (fun r => pvDaysDiff (cell r "actual_eta") (cell r "actual_ship_date")))
        "delay_days_vs_planned_eta"
        (fun r => pvDaysDiff (cell r "actual_eta") (cell r "planned_eta"))) :=
    DWF_addColIfAbsent (DWF_addColIfAbsent (DWF_addColIfAbsent
      (DWF_addColIfAbsent (DWF_addColIfAbsent hwf))))
  have hst5 : "status" ∈ (addColIfAbsent (addColIfAbsent (addColIfAbsent
      (addColIfAbsent (addColIfAbsent df "po_value"
        (fun r => pvMul (cell r "quantity") (cell r "unit_price")))
        "total_landed_cost"
        (fun r => pvAdd (pvAdd (cell r "po_value") (cell r "freight_cost"))
          (cell r "duty_cost")))
        "lead_time_days"
        (fun r => pvDaysDiff (cell r "actual_ship_date") (cell r "po_date")))
        "transit_time_days"
        (fun r => pvDaysDiff (cell r "actual_eta") (cell r "actual_ship_date")))
        "delay_days_vs_planned_eta"
        (fun r => pvDaysDiff (cell r "actual_eta") (cell r "planned_eta"))).cols :=
    cols_addColIfAbsent_superset (cols_addColIfAbsent_superset
      (cols_addColIfAbsent_superset (cols_addColIfAbsent_superset
        (cols_addColIfAbsent_superset hst))))
  have hae5 : "actual_eta" ∈ (addColIfAbsent (addColIfAbsent (addColIfAbsent
      (addColIfAbsent (addColIfAbsent df "po_value"
        (fun r => pvMul (cell r "quantity") (cell r "unit_price")))
        "total_landed_cost"
        (fun r => pvAdd (pvAdd (cell r "po_value") (cell r "freight_cost"))
          (cell r "duty_cost")))
        "lead_time_days"
        (fun r => pvDaysDiff (cell r "actual_ship_date") (cell r "po_date")))
        "transit_time_days"
        (fun r => pvDaysDiff (cell r "actual_eta") (cell r "actual_ship_date")))
        "delay_days_vs_planned_eta"
        (fun r => pvDaysDiff (cell r "actual_eta") (cell r "planned_eta"))).cols :=
    cols_addColIfAbsent_superset (cols_addColIfAbsent_superset
      (cols_addColIfAbsent_superset (cols_addColIfAbsent_superset
        (cols_addColIfAbsent_superset hae))))
  have hpe5 : "planned_eta" ∈ (addColIfAbsent (addColIfAbsent (addColIfAbsent
      (addColIfAbsent (addColIfAbsent df "po_value"
        (fun r => pvMul (cell r "quantity") (cell r "unit_price")))
        "total_landed_cost"
        (fun r => pvAdd (pvAdd (cell r "po_value") (cell r "freight_cost"))
          (cell r "duty_cost")))
        "lead_time_days"
        (fun r => pvDaysDiff (cell r "actual_ship_date") (cell r "po_date")))
        "transit_time_days"
        (fun r => pvDaysDiff (cell r "actual_eta") (cell r "actual_ship_date")))
        "delay_days_vs_planned_eta"
        (fun r => pvDaysDiff (cell r "actual_eta") (cell r "planned_eta"))).cols :=
    cols_addColIfAbsent_superset (cols_addColIfAbsent_superset
      (cols_addColIfAbsent_superset (cols_addColIfAbsent_superset
        (cols_addColIfAbsent_superset hpe))))
  -- peel the risk_flag stage
  obtain ⟨r6, hr6, he6⟩ := mem_rows_addColIfAbsent hr'
  -- the on_time stage fires
  rw [show (addColIfAbsent (addColIfAbsent (addColIfAbsent (addColIfAbsent
      (addColIfAbsent (addColIfAbsent df "po_value"
        (fun r => pvMul (cell r "quantity") (cell r "unit_price")))
        "total_landed_cost"
        (fun r => pvAdd (pvAdd (cell r "po_value") (cell r "freight_cost"))
          (cell r "duty_cost")))
        "lead_time_days"
        (fun r => pvDaysDiff (cell r "actual_ship_date") (cell r "po_date")))
        "transit_time_days"
        (fun r => pvDaysDiff (cell r "actual_eta") (cell r "actual_ship_date")))
        "delay_days_vs_planned_eta"
        (fun r => pvDaysDiff (cell r "actual_eta") (cell r "planned_eta")))
        "on_time"
        (fun r =>
          if pyEqB (cell r "status") (.vstr "Delivered")
              && dtLeB (toDT (cell r "actual_eta")) (toDT (cell r "planned_eta"))
          then .vint 1 else .vint 0)) =
      addCol (addColIfAbsent (addColIfAbsent (addColIfAbsent (addColIfAbsent
      (addColIfAbsent df "po_value"
        (fun r => pvMul (cell r "quantity") (cell r "unit_price")))
        "total_landed_cost"
        (fun r => pvAdd (pvAdd (cell r "po_value") (cell r "freight_cost"))
          (cell r "duty_cost")))
        "lead_time_days"
        (fun r => pvDaysDiff (cell r "actual_ship_date") (cell r "po_date")))
        "transit_time_days"
        (fun r => pvDaysDiff (cell r "actual_eta") (cell r "actual_ship_date")))
        "delay_days_vs_planned_eta"
        (fun r => pvDaysDiff (cell r "actual_eta") (cell r "planned_eta")))
        "on_time"
        (fun r =>
          if pyEqB (cell r "status") (.vstr "Delivered")
              && dtLeB (toDT (cell r "actual_eta")) (toDT (cell r "planned_eta"))
          then .vint 1 else .vint 0)
      from by unfold addColIfAbsent; exact if_neg h5] at hr6
  simp only [addCol, List.mem_map] at hr6
  obtain ⟨r5, hm5, rfl⟩ := hr6
  have hkeys5 := hwf5 r5 hm5
  have hss : (dLookup "status" r5).isSome := dLookup_isSome_iff.mpr (hkeys5 ▸ hst5)
  have hsa : (dLookup "actual_eta" r5).isSome := dLookup_isSome_iff.mpr (hkeys5 ▸ hae5)
  have hsp : (dLookup "planned_eta" r5).isSome := dLookup_isSome_iff.mpr (hkeys5 ▸ hpe5)
  have hno : dLookup "on_time" r5 = none :=
    dLookup_eq_none_of_not_mem (hkeys5 ▸ h5)
  set v6 : PyVal :=
    (if pyEqB (cell r5 "status") (.vstr "Delivered")
        && dtLeB (toDT (cell r5 "actual_eta")) (toDT (cell r5 "planned_eta"))
      then .vint 1 else .vint 0) with hv6
  have con6 : cell (r5 ++ [("on_time", v6)]) "on_time" = v6 := by
    simp [cell, dLookup_append_none _ hno, dLookup]
  have cst6 : cell (r5 ++ [("on_time", v6)]) "status" = cell r5 "status" :=
    cell_of_rowExt (rowExt_append _ _) hss
  have cae6 : cell (r5 ++ [("on_time", v6)]) "actual_eta" = cell r5 "actual_eta" :=
    cell_of_rowExt (rowExt_append _ _) hsa
  have cpe6 : cell (r5 ++ [("on_time", v6)]) "planned_eta" = cell r5 "planned_eta" :=
    cell_of_rowExt (rowExt_append _ _) hsp
  -- transport along the risk_flag stage
  have hkeys6 : (r5 ++ [("on_time", v6)]).map Prod.fst =
      (addColIfAbsent (addColIfAbsent (addColIfAbsent (addColIfAbsent
      (addColIfAbsent df "po_value"
        (fun r => pvMul (cell r "quantity") (cell r "unit_price")))
        "total_landed_cost"
        (fun r => pvAdd (pvAdd (cell r "po_value") (cell r "freight_cost"))
          (cell r "duty_cost")))
        "lead_time_days"
        (fun r => pvDaysDiff (cell r "actual_ship_date") (cell r "po_date")))
        "transit_time_days"
        (fun r => pvDaysDiff (cell r "actual_eta") (cell r "actual_ship_date")))
        "delay_days_vs_planned_eta"
        (fun r => pvDaysDiff (cell r "actual_eta") (cell r "planned_eta"))).cols
      ++ ["on_time"] := by
    simp [hkeys5]
  have con' : cell r' "on_time" = v6 := by
    rw [cell_of_rowExt he6 (by
      refine dLookup_isSome_iff.mpr ?_
      rw [hkeys6]
      simp)]
    exact con6
  have cst' : cell r' "status" = cell r5 "status" := by
    rw [cell_of_rowExt he6 (by
      refine dLookup_isSome_iff.mpr ?_
      rw [hkeys6]
      simp [hkeys5 ▸ hst5, hst5])]
    exact cst6
  have cae' : cell r' "actual_eta" = cell r5 "actual_eta" := by
    rw [cell_of_rowExt he6 (by
      refine dLookup_isSome_iff.mpr ?_
      rw [hkeys6]
      simp [hae5])]
    exact cae6
  have cpe' : cell r' "planned_eta" = cell r5 "planned_eta" := by
    rw [cell_of_rowExt he6 (by
      refine dLookup_isSome_iff.mpr ?_
      rw [hkeys6]
      simp [hpe5])]
    exact cpe6
  rw [con', cst', cae', cpe', hv6]
  by_cases hA : pyEqB (cell r5 "status") (.vstr "Delivered") = true
  · by_cases hB : dtLeB (toDT (cell r5 "actual_eta")) (toDT (cell r5 "planned_eta")) = true
    · rw [if_pos (by rw [hA, hB]; rfl)]
      refine ⟨by simp [(pyEqB_vstr_iff _ _).mp hA, hB], .inr rfl, ?_⟩
      intro hnull
      rcases hnull with h | h <;> simp [dtLeB, h] at hB
    · rw [if_neg (by simp [hB])]
      refine ⟨by simp [hB], .inl rfl, fun _ => rfl⟩
  · rw [if_neg (by simp [hA])]
    exact ⟨iff_of_false (by simp) (fun h => hA ((pyEqB_vstr_iff _ _).mpr h.1)),
      .inl rfl, fun _ => rfl⟩

theorem c5_on_time_iff_witness :
    (cell c45row "on_time" = .vint 1 ↔
      (cell c45row "status" = .vstr "Delivered"
        ∧ dtLeB (toDT (cell c45row "actual_eta")) (toDT (cell c45row "planned_eta"))
            = true))
      ∧ (cell c45row "on_time" = .vint 0 ∨ cell c45row "on_time" = .vint 1)
      ∧ ((toDT (cell c45row "actual_eta") = none
            ∨ toDT (cell c45row "planned_eta") = none)
          → cell c45row "on_time" = .vint 0) :=
  c5_on_time_iff 50 c45df
    (by intro r hr; fin_cases hr; rfl)
    (by decide) (by decide) (by decide) (by decide)
    c45row (show c45row ∈ [c45row] from List.mem_singleton_self _)

/- executor-shape lemmas for claim C7 -/

theorem filterRows_cols (df : DFrame) (p : List (String × PyVal) → Bool) :
    (filterRows df p).cols = df.cols := rfl

theorem filterRows_sublist (df : DFrame) (p : List (String × PyVal) → Bool) :
    (filterRows df p).rows.Sublist df.rows :=
  List.filter_sublist df.rows

theorem applyFilterItems_shape (kvs : List (String × PyVal)) :
    ∀ df : DFrame, (applyFilterItems df kvs).cols = df.cols
      ∧ (applyFilterItems df kvs).rows.Sublist df.rows := by
  induction kvs with
  | nil => exact fun df => ⟨rfl, List.Sublist.refl _⟩
  | cons kv rest ih =>
    intro df
    obtain ⟨k, v⟩ := kv
    simp only [applyFilterItems]
    by_cases hk : k ∈ df.cols
    · cases v with
      | vlist xs =>
        simp only [if_pos hk]
        refine ⟨(ih _).1.trans rfl, (ih _).2.trans (filterRows_sublist _ _)⟩
      | vnone =>
        simp only [if_pos hk]
        exact ⟨(ih _).1.trans rfl, (ih _).2.trans (filterRows_sublist _ _)⟩
      | vbool b =>
        simp only [if_pos hk]
        exact ⟨(ih _).1.trans rfl, (ih _).2.trans (filterRows_sublist _ _)⟩
      | vint n =>
        simp only [if_pos hk]
        exact ⟨(ih _).1.trans rfl, (ih _).2.trans (filterRows_sublist _ _)⟩
      | vstr s =>
        simp only [if_pos hk]
        exact ⟨(ih _).1.trans rfl, (ih _).2.trans (filterRows_sublist _ _)⟩
      | vdate d =>
        simp only [if_pos hk]
        exact ⟨(ih _).1.trans rfl, (ih _).2.trans (filterRows_sublist _ _)⟩
      | vdict kvs2 =>
        simp only [if_pos hk]
        exact ⟨(ih _).1.trans rfl, (ih _).2.trans (filterRows_sublist _ _)⟩
    · simp only [if_neg hk]
      exact ih df

theorem apply_filters_shape {df out : DFrame} {filters : PyVal}
    (h : apply_filters df filters = .ok out) :
    out.cols = df.cols ∧ out.rows.Sublist df.rows := by
  unfold apply_filters at h
  split at h
  · cases h
    exact ⟨rfl, List.Sublist.refl _⟩
  · split at h
    · cases h
      exact applyFilterItems_shape _ df
    · cases h

theorem apply_time_range_shape {now : Int} {df out : DFrame} {tr : PyVal}
    (h : apply_time_range now df tr = .ok out) :
    out.cols = df.cols ∧ out.rows.Sublist df.rows := by
  unfold apply_time_range at h
  dsimp only at h
  repeat' split at h
  all_goals first
    | (cases h; exact ⟨rfl, List.Sublist.refl _⟩)
    | (cases h; exact ⟨rfl, filterRows_sublist _ _⟩)
    | cases h

theorem apply_limit_shape {df out : DFrame} {lim : PyVal}
    (h : apply_limit df lim = .ok out) :
    out.cols = df.cols ∧ out.rows.Sublist df.rows := by
  unfold apply_limit at h
  dsimp only at h
  repeat' split at h
  all_goals first
    | (cases h; exact ⟨rfl, List.Sublist.refl _⟩)
    | (cases h; exact ⟨rfl, filterRows_sublist _ _⟩)
    | cases h

/-- Claim C7 (counterexample): `apply_llm_plan` reads the wall clock
(`pd.Timestamp.utcnow()`) inside `_apply_time_range`, so two runs with
identical `(data, df, plan)` inputs at different instants can return
different tables: at day 100 the single row survives the one-day window,
at day 103 it does not. -/
theorem c7_clock_dependence_counterexample :
    apply_llm_plan 100 c7df c7df c7plan ≠ apply_llm_plan 103 c7df c7df c7plan := by
  intro h
  have h2 := congrArg
    (fun e : Except PyExc DFrame =>
      match e with
      | .ok d => d.rows.length
      | .error _ => 0) h
  exact absurd h2 (by decide)

/-- Claim C7 (amended): for a fixed current time the executor is a pure
function of `(now, data, df, plan)` — re-running it returns the same
table — and every successful run returns a subview of its input: the
columns unchanged and the rows a subsequence of `df.rows`.  Across
different instants a `last_n_days` plan over a recognized timestamp
column may select different rows (see the counterexample). -/
theorem c7_executor_returns_subview (now : Int) (data df : DFrame)
    (plan : List (String × PyVal)) (out : DFrame)
    (h : apply_llm_plan now data df plan = .ok out) :
    out.cols = df.cols ∧ out.rows.Sublist df.rows := by
  unfold apply_llm_plan at h
  simp only [bind, Except.bind, pure, Except.pure] at h
  split at h
  · cases h
  · rename_i o1 h1
    split at h
    · cases h
    · rename_i o2 h2
      split at h
      · cases h
      · rename_i o3 h3
        cases h
        obtain ⟨c1, s1⟩ := apply_time_range_shape h1
        obtain ⟨c2, s2⟩ := apply_filters_shape h2
        obtain ⟨c3, s3⟩ := apply_limit_shape h3
        exact ⟨c3.trans (c2.trans c1), s3.trans (s2.trans s1)⟩

theorem c7_executor_returns_subview_witness :
    c7df.cols = c7df.cols ∧ c7df.rows.Sublist c7df.rows :=
  c7_executor_returns_subview 0 c7df c7df [] c7df rfl

/- dictionary-update lemmas for the enrichment claims -/

theorem dLookup_dSet_self (k : String) (v : PyVal) (d : List (String × PyVal)) :
    dLookup k (dSet k v d) = some v := by
  induction d with
  | nil => simp [dSet, dLookup]
  | cons x rest ih =>
    obtain ⟨c, w⟩ := x
    by_cases hc : c = k
    · simp [dSet, dLookup, hc]
    · simp [dSet, dLookup, hc, ih]

theorem dLookup_dSet_ne {k k' : String} (h : k ≠ k') (v : PyVal)
    (d : List (String × PyVal)) : dLookup k (dSet k' v d) = dLookup k d := by
  induction d with
  | nil =>
    simp only [dSet, dLookup]
    rw [if_neg (fun he : k' = k => h he.symm)]
  | cons x rest ih =>
    obtain ⟨c, w⟩ := x
    simp only [dSet]
    by_cases hc : c = k'
    · rw [if_pos hc]
      have hck : ¬(c = k) := fun he => h (he ▸ hc)
      simp only [dLookup]
      rw [if_neg hck, if_neg hck]
    · rw [if_neg hc]
      simp only [dLookup]
      by_cases hck : c = k
      · rw [if_pos hck, if_pos hck]
      · rw [if_neg hck, if_neg hck]
        exact ih

theorem dSet_ne_nil (k : String) (v : PyVal) (d : List (String × PyVal)) :
    dSet k v d ≠ [] := by
  cases d with
  | nil => simp [dSet]
  | cons x rest =>
    obtain ⟨c, w⟩ := x
    by_cases hc : c = k <;> simp [dSet, hc]

theorem dSet_isSome {k k' : String} {d : List (String × PyVal)} (v : PyVal)
    (h : (dLookup k d).isSome) : (dLookup k (dSet k' v d)).isSome := by
  by_cases hk : k = k'
  · subst hk
    simp [dLookup_dSet_self]
  · rw [dLookup_dSet_ne hk]
    exact h

theorem dLookup_dSetDefault_self (d : List (String × PyVal)) (k : String)
    (v : PyVal) : dLookup k (dSetDefault d k v) = some ((dLookup k d).getD v) := by
  unfold dSetDefault
  cases hd : dLookup k d with
  | none => simp [hd, dLookup_append_none _ hd, dLookup]
  | some w => simp [hd, dLookup]

theorem dLookup_dSetDefault_ne {k k' : String} (h : k ≠ k')
    (d : List (String × PyVal)) (v : PyVal) :
    dLookup k (dSetDefault d k' v) = dLookup k d := by
  unfold dSetDefault
  split
  · rfl
  · cases hd : dLookup k d with
    | none =>
      rw [dLookup_append_none _ hd]
      simp only [dLookup]
      rw [if_neg (fun he : k' = k => h he.symm)]
    | some w => exact dLookup_append_some hd

theorem dSetDefault_preserve {k : String} {d : List (String × PyVal)}
    (hs : (dLookup k d).isSome) (k' : String) (v : PyVal) :
    dLookup k (dSetDefault d k' v) = dLookup k d := by
  by_cases hk : k = k'
  · subst hk
    rw [dLookup_dSetDefault_self]
    obtain ⟨w, hw⟩ := Option.isSome_iff_exists.mp hs
    simp [hw]
  · exact dLookup_dSetDefault_ne hk d v

theorem sdFold_preserve {k : String} {d : List (String × PyVal)}
    (ks : List String) (hs : (dLookup k d).isSome) :
    dLookup k (sdFold ks d) = dLookup k d := by
  induction ks generalizing d with
  | nil => rfl
  | cons k' rest ih =>
    rw [show sdFold (k' :: rest) d = sdFold rest (dSetDefault d k' .vnone) from rfl]
    rw [ih (by rw [dSetDefault_preserve hs]; exact hs)]
    exact dSetDefault_preserve hs k' .vnone

theorem sdFold_absent {k : String} {d : List (String × PyVal)} {ks : List String}
    (hk : k ∈ ks) (hd : dLookup k d = none) :
    dLookup k (sdFold ks d) = some .vnone := by
  induction ks generalizing d with
  | nil => cases hk
  | cons k' rest ih =>
    rw [show sdFold (k' :: rest) d = sdFold rest (dSetDefault d k' .vnone) from rfl]
    by_cases he : k = k'
    · subst he
      have hset : dLookup k (dSetDefault d k .vnone) = some .vnone := by
        rw [dLookup_dSetDefault_self, hd]
        rfl
      rw [sdFold_preserve rest (by rw [hset]; rfl)]
      exact hset
    · rcases List.mem_cons.mp hk with h | h
      · exact absurd h he
      · exact ih h (by rw [dLookup_dSetDefault_ne he]; exact hd)

theorem sdFold_isSome {k : String} {d : List (String × PyVal)} {ks : List String}
    (hk : k ∈ ks) : (dLookup k (sdFold ks d)).isSome := by
  cases hd : dLookup k d with
  | none => rw [sdFold_absent hk hd]; rfl
  | some v =>
    rw [sdFold_preserve ks (by rw [hd]; rfl), hd]
    rfl

theorem sdFold_id {d : List (String × PyVal)} {ks : List String}
    (h : ∀ k ∈ ks, (dLookup k d).isSome) : sdFold ks d = d := by
  induction ks with
  | nil => rfl
  | cons k' rest ih =>
    rw [show sdFold (k' :: rest) d = sdFold rest (dSetDefault d k' .vnone) from rfl]
    rw [show dSetDefault d k' .vnone = d from if_pos (h k' (by simp))]
    exact ih (fun k hk => h k (by simp [hk]))

/- facts about the `setdefault` + filters-repair prefix of the block -/

theorem enrichDefaults_isSome {k : String} {p : List (String × PyVal)}
    (hk : k ∈ SIX_KEYS) : (dLookup k (enrichDefaults p)).isSome := by
  have h1 : (dLookup k (sdFold SIX_KEYS p)).isSome := sdFold_isSome hk
  simp only [enrichDefaults]
  split
  · exact dSet_isSome _ h1
  · exact h1

theorem enrichDefaults_filters_not_vnone (p : List (String × PyVal)) :
    ∃ v, dLookup "filters" (enrichDefaults p) = some v ∧ v ≠ .vnone := by
  simp only [enrichDefaults]
  cases hf : dLookup "filters" (sdFold SIX_KEYS p) with
  | none =>
    have := @sdFold_isSome "filters" p SIX_KEYS (by decide)
    rw [hf] at this
    cases this
  | some v =>
    cases v with
    | vnone => exact ⟨.vdict [], by rw [dLookup_dSet_self], by simp⟩
    | vbool b => exact ⟨.vbool b, hf, by simp⟩
    | vint n => exact ⟨.vint n, hf, by simp⟩
    | vstr s => exact ⟨.vstr s, hf, by simp⟩
    | vdate d => exact ⟨.vdate d, hf, by simp⟩
    | vlist xs => exact ⟨.vlist xs, hf, by simp⟩
    | vdict kvs => exact ⟨.vdict kvs, hf, by simp⟩

/- per-step lookup preservation for the enrichment stages -/

theorem enrichTime_lookup_ne {k : String} (hk : k ≠ "time_range")
    (ql : String) (p : List (String × PyVal)) :
    dLookup k (enrichTime ql p) = dLookup k p := by
  unfold enrichTime
  repeat' split
  all_goals first
    | rfl
    | exact dLookup_dSet_ne hk _ _

theorem enrichLimit_lookup_ne {k : String} (hk : k ≠ "limit")
    (q : String) (p : List (String × PyVal)) :
    dLookup k (enrichLimit q p) = dLookup k p := by
  unfold enrichLimit
  repeat' split
  all_goals first
    | rfl
    | exact dLookup_dSet_ne hk _ _

theorem enrichOrder_lookup_ne {k : String} (hk : k ≠ "order_by")
    (ql : String) (p : List (String × PyVal)) :
    dLookup k (enrichOrder ql p) = dLookup k p := by
  unfold enrichOrder
  repeat' split
  all_goals first
    | rfl
    | exact dLookup_dSet_ne hk _ _

theorem enrichTime_isSome {k ql : String} {p : List (String × PyVal)}
    (h : (dLookup k p).isSome) : (dLookup k (enrichTime ql p)).isSome := by
  unfold enrichTime
  repeat' split
  all_goals first
    | exact h
    | exact dSet_isSome _ h

theorem enrichLimit_isSome {k q : String} {p : List (String × PyVal)}
    (h : (dLookup k p).isSome) : (dLookup k (enrichLimit q p)).isSome := by
  unfold enrichLimit
  repeat' split
  all_goals first
    | exact h
    | exact dSet_isSome _ h

theorem enrichOrder_isSome {k ql : String} {p : List (String × PyVal)}
    (h : (dLookup k p).isSome) : (dLookup k (enrichOrder ql p)).isSome := by
  unfold enrichOrder
  repeat' split
  all_goals first
    | exact h
    | exact dSet_isSome _ h

/-- on a plan whose `filters` value is a dict, the risky step never
raises, preserves key presence, and leaves `filters` a dict. -/
theorem enrichRisky_ok_of_dict {ql : String} {p : List (String × PyVal)}
    {kvs : List (String × PyVal)}
    (hf : dLookup "filters" p = some (.vdict kvs)) :
    ∃ p', enrichRisky ql p = .ok p'
      ∧ (∀ k, (dLookup k p).isSome → (dLookup k p').isSome)
      ∧ ∃ kvs', dLookup "filters" p' = some (.vdict kvs') := by
  have hgd : dGetD p "filters" .vnone = .vdict kvs := by
    simp [dGetD, hf]
  by_cases hr : strContains ql "risky" = true
  · by_cases he : pyFalsy (.vdict kvs) = true
    · -- empty filters dict: membership checked on the fresh `{}`
      refine ⟨dSet "filters" (.vdict (dSet "status" (.vstr "Delayed") kvs)) p, ?_,
        fun k hk => dSet_isSome _ hk,
        dSet "status" (.vstr "Delayed") kvs, dLookup_dSet_self _ _ _⟩
      simp [enrichRisky, hr, hgd, he, containsStatusKey, dLookup, assignStatus]
    · by_cases hh : (dLookup "status" kvs).isSome
      · refine ⟨p, ?_, fun _ hk => hk, kvs, hf⟩
        simp [enrichRisky, hr, hgd, he, containsStatusKey, hh]
      · refine ⟨dSet "filters" (.vdict (dSet "status" (.vstr "Delayed") kvs)) p, ?_,
          fun k hk => dSet_isSome _ hk,
          dSet "status" (.vstr "Delayed") kvs, dLookup_dSet_self _ _ _⟩
        simp [enrichRisky, hr, hgd, he, containsStatusKey, hh, assignStatus]
  · refine ⟨p, ?_, fun _ hk => hk, kvs, hf⟩
    simp [enrichRisky, hr]

/-- Claim C3 (counterexample): the enrichment step can raise.  With a
payload whose `filters` value is the integer `0` and a question
containing `risky`, the membership test runs on the substituted `{}` but
the assignment `raw_plan["filters"]["status"] = "Delayed"` hits the
integer and raises `TypeError` (caught only by `app.py`'s outer
`except`). -/
theorem c3_enrichment_raises_counterexample :
    enrich_plan "show risky shipments" [("filters", .vint 0)]
      = .error .typeError := rfl

/-- Claim C3 (amended): for every payload whose `filters` entry is
absent, `None`, or a mapping, the enrichment block returns without
raising a plan with all six keys present and `filters` a mapping (never
null).  (For other `filters` values the block can raise a `TypeError` or
let the non-mapping value through — see the counterexample.) -/
theorem c3_enrichment_guarantees (q : String) (p : List (String × PyVal))
    (hf : dLookup "filters" p = none ∨ dLookup "filters" p = some .vnone
      ∨ ∃ kvs, dLookup "filters" p = some (.vdict kvs)) :
    ∃ p', enrich_plan q p = .ok p'
      ∧ (∀ k ∈ SIX_KEYS, (dLookup k p').isSome)
      ∧ ∃ kvs, dLookup "filters" p' = some (.vdict kvs) := by
  -- after the defaults prefix, `filters` is a dict
  have hd : ∃ kvs, dLookup "filters" (enrichDefaults p) = some (.vdict kvs) := by
    simp only [enrichDefaults]
    rcases hf with h | h | ⟨kvs, h⟩
    · refine ⟨[], ?_⟩
      have : dLookup "filters" (sdFold SIX_KEYS p) = some .vnone :=
        sdFold_absent (by decide) h
      rw [this]
      exact dLookup_dSet_self _ _ _
    · refine ⟨[], ?_⟩
      have : dLookup "filters" (sdFold SIX_KEYS p) = some .vnone := by
        rw [sdFold_preserve SIX_KEYS (by rw [h]; rfl)]
        exact h
      rw [this]
      exact dLookup_dSet_self _ _ _
    · refine ⟨kvs, ?_⟩
      have hks : dLookup "filters" (sdFold SIX_KEYS p) = some (.vdict kvs) := by
        rw [sdFold_preserve SIX_KEYS (by rw [h]; rfl)]
        exact h
      rw [hks]
      exact hks
  obtain ⟨kvs0, hd0⟩ := hd
  -- the three middle stages leave `filters` alone
  have hmid : dLookup "filters"
      (enrichOrder (sLower q) (enrichLimit q (enrichTime (sLower q)
        (enrichDefaults p)))) = some (.vdict kvs0) := by
    rw [enrichOrder_lookup_ne (by decide), enrichLimit_lookup_ne (by decide),
      enrichTime_lookup_ne (by decide)]
    exact hd0
  obtain ⟨p', hok, hpres, kvs', hf'⟩ := @enrichRisky_ok_of_dict (sLower q) _ _ hmid
  refine ⟨p', ?_, ?_, kvs', hf'⟩
  · unfold enrich_plan
    exact hok
  · intro k hk
    exact hpres k (enrichOrder_isSome (enrichLimit_isSome (enrichTime_isSome
      (enrichDefaults_isSome hk))))

theorem c3_enrichment_guarantees_witness :
    ∃ p', enrich_plan "show risky shipments" [("filters", .vnone)] = .ok p'
      ∧ (∀ k ∈ SIX_KEYS, (dLookup k p').isSome)
      ∧ ∃ kvs, dLookup "filters" p' = some (.vdict kvs) :=
  c3_enrichment_guarantees "show risky shipments" [("filters", .vnone)]
    (.inr (.inl rfl))

/- fixpoint lemmas for the enrichment stages (claim C8) -/

theorem enrichTime_of_not_vnone {ql : String} {r : List (String × PyVal)}
    (h : dLookup "time_range" r ≠ some .vnone) : enrichTime ql r = r := by
  unfold enrichTime
  cases hl : dLookup "time_range" r with
  | none => rfl
  | some v =>
    cases v with
    | vnone => exact absurd hl h
    | vbool b => rfl
    | vint n => rfl
    | vstr s => rfl
    | vdate d => rfl
    | vlist xs => rfl
    | vdict kvs => rfl

theorem enrichTime_vnone_stuck {ql : String} {r : List (String × PyVal)}
    (hl : dLookup "time_range" r = some .vnone)
    (h30 : strContains ql "last 30 days" = false)
    (h14 : strContains ql "last 14 days" = false)
    (h90 : strContains ql "last quarter" = false) : enrichTime ql r = r := by
  unfold enrichTime
  rw [hl]
  simp [h30, h14, h90]

theorem enrichTime_stable {ql : String} {p r : List (String × PyVal)}
    (hval : dLookup "time_range" r = dLookup "time_range" (enrichTime ql p)) :
    enrichTime ql r = r := by
  cases hvp : dLookup "time_range" p with
  | none =>
    have hep : enrichTime ql p = p := enrichTime_of_not_vnone (by rw [hvp]; simp)
    exact enrichTime_of_not_vnone (by rw [hval, hep, hvp]; simp)
  | some v =>
    cases v with
    | vnone =>
      by_cases h30 : strContains ql "last 30 days" = true
      · have hep : dLookup "time_range" (enrichTime ql p)
            = some (.vdict [("type", .vstr "last_n_days"), ("n", .vint 30)]) := by
          unfold enrichTime
          rw [hvp]
          rw [if_pos h30]
          exact dLookup_dSet_self _ _ _
        exact enrichTime_of_not_vnone (by rw [hval, hep]; simp)
      · by_cases h14 : strContains ql "last 14 days" = true
        · have hep : dLookup "time_range" (enrichTime ql p)
              = some (.vdict [("type", .vstr "last_n_days"), ("n", .vint 14)]) := by
            unfold enrichTime
            rw [hvp]
            rw [if_neg (by simp [h30]), if_pos h14]
            exact dLookup_dSet_self _ _ _
          exact enrichTime_of_not_vnone (by rw [hval, hep]; simp)
        · by_cases h90 : strContains ql "last quarter" = true
          · have hep : dLookup "time_range" (enrichTime ql p)
                = some (.vdict [("type", .vstr "last_n_days"), ("n", .vint 90)]) := by
              unfold enrichTime
              rw [hvp]
              rw [if_neg (by simp [h30]), if_neg (by simp [h14]), if_pos h90]
              exact dLookup_dSet_self _ _ _
            exact enrichTime_of_not_vnone (by rw [hval, hep]; simp)
          · have hep : enrichTime ql p = p :=
              enrichTime_vnone_stuck hvp (by simp [h30]) (by simp [h14]) (by simp [h90])
            exact enrichTime_vnone_stuck (by rw [hval, hep]; exact hvp)
              (by simp [h30]) (by simp [h14]) (by simp [h90])
    | vbool b =>
      have hep : enrichTime ql p = p := enrichTime_of_not_vnone (by rw [hvp]; simp)
      exact enrichTime_of_not_vnone (by rw [hval, hep, hvp]; simp)
    | vint n =>
      have hep : enrichTime ql p = p := enrichTime_of_not_vnone (by rw [hvp]; simp)
      exact enrichTime_of_not_vnone (by rw [hval, hep, hvp]; simp)
    | vstr s =>
      have hep : enrichTime ql p = p := enrichTime_of_not_vnone (by rw [hvp]; simp)
      exact enrichTime_of_not_vnone (by rw [hval, hep, hvp]; simp)
    | vdate d =>
      have hep : enrichTime ql p = p := enrichTime_of_not_vnone (by rw [hvp]; simp)
      exact enrichTime_of_not_vnone (by rw [hval, hep, hvp]; simp)
    | vlist xs =>
      have hep : enrichTime ql p = p := enrichTime_of_not_vnone (by rw [hvp]; simp)
      exact enrichTime_of_not_vnone (by rw [hval, hep, hvp]; simp)
    | vdict kvs =>
      have hep : enrichTime ql p = p := enrichTime_of_not_vnone (by rw [hvp]; simp)
      exact enrichTime_of_not_vnone (by rw [hval, hep, hvp]; simp)

theorem enrichLimit_of_not_vnone {q : String} {r : List (String × PyVal)}
    (h : dLookup "limit" r ≠ some .vnone) : enrichLimit q r = r := by
  unfold enrichLimit
  cases hl : dLookup "limit" r with
  | none => rfl
  | some v =>
    cases v with
    | vnone => exact absurd hl h
    | vbool b => rfl
    | vint n => rfl
    | vstr s => rfl
    | vdate d => rfl
    | vlist xs => rfl
    | vdict kvs => rfl

theorem enrichLimit_stable {q : String} {p r : List (String × PyVal)}
    (hval : dLookup "limit" r = dLookup "limit" (enrichLimit q p)) :
    enrichLimit q r = r := by
  cases hvp : dLookup "limit" p with
  | none =>
    have hep : enrichLimit q p = p := enrichLimit_of_not_vnone (by rw [hvp]; simp)
    exact enrichLimit_of_not_vnone (by rw [hval, hep, hvp]; simp)
  | some v =>
    cases v with
    | vnone =>
      cases het : extract_top_limit_from_text q with
      | none =>
        have hep : enrichLimit q p = p := by
          unfold enrichLimit
          rw [hvp, het]
        have hlr : dLookup "limit" r = some .vnone := by
          rw [hval, hep]
          exact hvp
        unfold enrichLimit
        rw [hlr, het]
      | some dn =>
        have hep : dLookup "limit" (enrichLimit q p)
            = some (.vdict [("dimension", .vstr dn.1), ("n", .vint dn.2),
                ("metric", .vstr "total_landed_cost")]) := by
          unfold enrichLimit
          rw [hvp, het]
          exact dLookup_dSet_self _ _ _
        exact enrichLimit_of_not_vnone (by rw [hval, hep]; simp)
    | vbool b =>
      have hep : enrichLimit q p = p := enrichLimit_of_not_vnone (by rw [hvp]; simp)
      exact enrichLimit_of_not_vnone (by rw [hval, hep, hvp]; simp)
    | vint n =>
      have hep : enrichLimit q p = p := enrichLimit_of_not_vnone (by rw [hvp]; simp)
      exact enrichLimit_of_not_vnone (by rw [hval, hep, hvp]; simp)
    | vstr s =>
      have hep : enrichLimit q p = p := enrichLimit_of_not_vnone (by rw [hvp]; simp)
      exact enrichLimit_of_not_vnone (by rw [hval, hep, hvp]; simp)
    | vdate d =>
      have hep : enrichLimit q p = p := enrichLimit_of_not_vnone (by rw [hvp]; simp)
      exact enrichLimit_of_not_vnone (by rw [hval, hep, hvp]; simp)
    | vlist xs =>
      have hep : enrichLimit q p = p := enrichLimit_of_not_vnone (by rw [hvp]; simp)
      exact enrichLimit_of_not_vnone (by rw [hval, hep, hvp]; simp)
    | vdict kvs =>
      have hep : enrichLimit q p = p := enrichLimit_of_not_vnone (by rw [hvp]; simp)
      exact enrichLimit_of_not_vnone (by rw [hval, hep, hvp]; simp)

theorem enrichOrder_of_not_vnone {ql : String} {r : List (String × PyVal)}
    (h : dLookup "order_by" r ≠ some .vnone) : enrichOrder ql r = r := by
  unfold enrichOrder
  cases hl : dLookup "order_by" r with
  | none => rfl
  | some v =>
    cases v with
    | vnone => exact absurd hl h
    | vbool b => rfl
    | vint n => rfl
    | vstr s => rfl
    | vdate d => rfl
    | vlist xs => rfl
    | vdict kvs => rfl

theorem enrichOrder_vnone_stuck {ql : String} {r : List (String × PyVal)}
    (hl : dLookup "order_by" r = some .vnone)
    (hsp : strContains ql "spend" = false)
    (hde : strContains ql "delay" = false)
    (hot : (strContains ql "on-time" || strContains ql "on time") = false) :
    enrichOrder ql r = r := by
  unfold enrichOrder
  rw [hl]
  simp [hsp, hde, Bool.or_eq_false_iff.mp hot]

theorem enrichOrder_stable {ql : String} {p r : List (String × PyVal)}
    (hval : dLookup "order_by" r = dLookup "order_by" (enrichOrder ql p)) :
    enrichOrder ql r = r := by
  cases hvp : dLookup "order_by" p with
  | none =>
    have hep : enrichOrder ql p = p := enrichOrder_of_not_vnone (by rw [hvp]; simp)
    exact enrichOrder_of_not_vnone (by rw [hval, hep, hvp]; simp)
  | some v =>
    cases v with
    | vnone =>
      by_cases hsp : strContains ql "spend" = true
      · have hep : dLookup "order_by" (enrichOrder ql p)
            = some (.vdict [("metric", .vstr "total_landed_cost"),
                ("direction", .vstr "desc")]) := by
          unfold enrichOrder
          rw [hvp]
          rw [if_pos hsp]
          exact dLookup_dSet_self _ _ _
        exact enrichOrder_of_not_vnone (by rw [hval, hep]; simp)
      · by_cases hde : strContains ql "delay" = true
        · have hep : dLookup "order_by" (enrichOrder ql p)
              = some (.vdict [("metric", .vstr "delay_days_vs_planned_eta"),
                  ("direction", .vstr "desc")]) := by
            unfold enrichOrder
            rw [hvp]
            rw [if_neg (by simp [hsp]), if_pos hde]
            exact dLookup_dSet_self _ _ _
          exact enrichOrder_of_not_vnone (by rw [hval, hep]; simp)
        · by_cases hot : (strContains ql "on-time" || strContains ql "on time") = true
          · have hep : dLookup "order_by" (enrichOrder ql p)
                = some (.vdict [("metric", .vstr "on_time_percent"),
                    ("direction", .vstr "desc")]) := by
              unfold enrichOrder
              rw [hvp]
              rw [if_neg (by simp [hsp]), if_neg (by simp [hde]), if_pos hot]
              exact dLookup_dSet_self _ _ _
            exact enrichOrder_of_not_vnone (by rw [hval, hep]; simp)
          · have hep : enrichOrder ql p = p :=
              enrichOrder_vnone_stuck hvp (by simp [hsp]) (by simp [hde])
                (Bool.eq_false_iff.mpr hot)
            exact enrichOrder_vnone_stuck (by rw [hval, hep]; exact hvp)
              (by simp [hsp]) (by simp [hde]) (Bool.eq_false_iff.mpr hot)
    | vbool b =>
      have hep : enrichOrder ql p = p := enrichOrder_of_not_vnone (by rw [hvp]; simp)
      exact enrichOrder_of_not_vnone (by rw [hval, hep, hvp]; simp)
    | vint n =>
      have hep : enrichOrder ql p = p := enrichOrder_of_not_vnone (by rw [hvp]; simp)
      exact enrichOrder_of_not_vnone (by rw [hval, hep, hvp]; simp)
    | vstr s =>
      have hep : enrichOrder ql p = p := enrichOrder_of_not_vnone (by rw [hvp]; simp)
      exact enrichOrder_of_not_vnone (by rw [hval, hep, hvp]; simp)
    | vdate d =>
      have hep : enrichOrder ql p = p := enrichOrder_of_not_vnone (by rw [hvp]; simp)
      exact enrichOrder_of_not_vnone (by rw [hval, hep, hvp]; simp)
    | vlist xs =>
      have hep : enrichOrder ql p = p := enrichOrder_of_not_vnone (by rw [hvp]; simp)
      exact enrichOrder_of_not_vnone (by rw [hval, hep, hvp]; simp)
    | vdict kvs =>
      have hep : enrichOrder ql p = p := enrichOrder_of_not_vnone (by rw [hvp]; simp)
      exact enrichOrder_of_not_vnone (by rw [hval, hep, hvp]; simp)

theorem assignStatus_ok {f f2 : PyVal} (h : assignStatus f = .ok f2) :
    ∃ kvs, f = .vdict kvs ∧ f2 = .vdict (dSet "status" (.vstr "Delayed") kvs) := by
  cases f with
  | vdict kvs =>
    refine ⟨kvs, rfl, ?_⟩
    simpa [assignStatus] using h.symm
  | vnone => simp [assignStatus] at h
  | vbool b => simp [assignStatus] at h
  | vint n => simp [assignStatus] at h
  | vstr s => simp [assignStatus] at h
  | vdate d => simp [assignStatus] at h
  | vlist xs => simp [assignStatus] at h

theorem enrichRisky_cases {ql : String} {p p' : List (String × PyVal)}
    (h : enrichRisky ql p = .ok p') :
    p' = p ∨ ∃ kvs, p' = dSet "filters" (.vdict kvs) p := by
  unfold enrichRisky at h
  split at h
  · dsimp only at h
    split at h
    · cases h
    · split at h
      · cases h
        exact .inl rfl
      · split at h
        · cases h
        · rename_i f2 heq
          obtain ⟨kvs, -, rfl⟩ := assignStatus_ok heq
          cases h
          exact .inr ⟨_, rfl⟩
  · cases h
    exact .inl rfl

theorem enrichRisky_stable {ql : String} {p p' : List (String × PyVal)}
    (h : enrichRisky ql p = .ok p') : enrichRisky ql p' = .ok p' := by
  by_cases hr : strContains ql "risky" = true
  · unfold enrichRisky at h
    rw [if_pos hr] at h
    dsimp only at h
    split at h
    · cases h
    · rename_i has hcs
      split at h
      · -- membership already holds: nothing changed
        cases h
        rename_i hhas
        simp [enrichRisky, hr, hcs, hhas]
      · -- the assignment branch
        split at h
        · cases h
        · rename_i f2 heq
          obtain ⟨kvs, hfk, rfl⟩ := assignStatus_ok heq
          cases h
          have hget : dGetD (dSet "filters"
              (.vdict (dSet "status" (.vstr "Delayed") kvs)) p) "filters" .vnone
              = .vdict (dSet "status" (.vstr "Delayed") kvs) := by
            simp [dGetD, dLookup_dSet_self]
          have hne : pyFalsy (.vdict (dSet "status" (.vstr "Delayed") kvs)) = false := by
            simp only [pyFalsy]
            cases hk : dSet "status" (.vstr "Delayed") kvs with
            | nil => exact absurd hk (dSet_ne_nil _ _ _)
            | cons a rest => rfl
          simp [enrichRisky, hr, hget, hne, containsStatusKey, dLookup_dSet_self]
  · unfold enrichRisky at h ⊢
    rw [if_neg hr] at h
    cases h
    rw [if_neg hr]

theorem enrichDefaults_id {p : List (String × PyVal)}
    (hsome : ∀ k ∈ SIX_KEYS, (dLookup k p).isSome)
    (hfil : ∀ v, dLookup "filters" p = some v → v ≠ .vnone) :
    enrichDefaults p = p := by
  simp only [enrichDefaults]
  rw [sdFold_id hsome]
  cases hl : dLookup "filters" p with
  | none => rfl
  | some v =>
    cases v with
    | vnone => exact absurd rfl (hfil _ hl)
    | vbool b => rfl
    | vint n => rfl
    | vstr s => rfl
    | vdate d => rfl
    | vlist xs => rfl
    | vdict kvs => rfl

/-- Claim C8: the validation/enrichment block is idempotent — feeding its
own output (for the same question) back through it returns that output
unchanged, whenever the first pass succeeded. -/
theorem c8_enrichment_idempotent (q : String) (p p' : List (String × PyVal))
    (h : enrich_plan q p = .ok p') : enrich_plan q p' = .ok p' := by
  simp only [enrich_plan] at h ⊢
  set ql := sLower q with hql
  set m1 := enrichDefaults p with hm1
  set m2 := enrichTime ql m1 with hm2
  set m3 := enrichLimit q m2 with hm3
  set m4 := enrichOrder ql m3 with hm4
  have hcases := enrichRisky_cases h
  have hlkT : dLookup "time_range" p' = dLookup "time_range" m4 := by
    rcases hcases with rfl | ⟨kvs, rfl⟩
    · rfl
    · exact dLookup_dSet_ne (by decide) _ _
  have hlkL : dLookup "limit" p' = dLookup "limit" m4 := by
    rcases hcases with rfl | ⟨kvs, rfl⟩
    · rfl
    · exact dLookup_dSet_ne (by decide) _ _
  have hlkO : dLookup "order_by" p' = dLookup "order_by" m4 := by
    rcases hcases with rfl | ⟨kvs, rfl⟩
    · rfl
    · exact dLookup_dSet_ne (by decide) _ _
  have hsome : ∀ k ∈ SIX_KEYS, (dLookup k p').isSome := by
    intro k hk
    have h4 : (dLookup k m4).isSome := by
      rw [hm4, hm3, hm2, hm1]
      exact enrichOrder_isSome (enrichLimit_isSome (enrichTime_isSome
        (enrichDefaults_isSome hk)))
    rcases hcases with rfl | ⟨kvs, rfl⟩
    · exact h4
    · exact dSet_isSome _ h4
  have hfil : ∀ v, dLookup "filters" p' = some v → v ≠ .vnone := by
    rcases hcases with rfl | ⟨kvs, rfl⟩
    · obtain ⟨w, hw, hwne⟩ := enrichDefaults_filters_not_vnone p
      have hwm : dLookup "filters" m4 = some w := by
        rw [hm4, enrichOrder_lookup_ne (by decide), hm3,
          enrichLimit_lookup_ne (by decide), hm2, enrichTime_lookup_ne (by decide),
          hm1]
        exact hw
      intro v hv
      rw [hwm] at hv
      cases hv
      exact hwne
    · intro v hv
      rw [dLookup_dSet_self] at hv
      cases hv
      simp
  have he1 : enrichDefaults p' = p' := enrichDefaults_id hsome hfil
  have he2 : enrichTime ql p' = p' := by
    refine @enrichTime_stable ql m1 p' ?_
    rw [← hm2, hlkT, hm4, enrichOrder_lookup_ne (by decide), hm3,
      enrichLimit_lookup_ne (by decide)]
  have he3 : enrichLimit q p' = p' := by
    refine @enrichLimit_stable q m2 p' ?_
    rw [← hm3, hlkL, hm4, enrichOrder_lookup_ne (by decide)]
  have he4 : enrichOrder ql p' = p' := by
    refine @enrichOrder_stable ql m3 p' ?_
    rw [← hm4, hlkO]
  have he5 : enrichRisky ql p' = .ok p' := enrichRisky_stable h
  rw [he1, he2, he3, he4]
  exact he5

theorem c8_enrichment_idempotent_witness :
    enrich_plan c8q [] = .ok c8plan1 ∧ enrich_plan c8q c8plan1 = .ok c8plan1 :=
  ⟨rfl, c8_enrichment_idempotent c8q [] c8plan1 rfl⟩

/- stable-sort lemmas for the top-N tie-break claim (C6) -/

theorem mem_insertLe {α : Type} {le : α → α → Bool} {a x : α} {l : List α} :
    a ∈ insertLe le x l ↔ a = x ∨ a ∈ l := by
  induction l with
  | nil => simp [insertLe]
  | cons y ys ih =>
    by_cases h : le x y = true
    · simp [insertLe, h]
    · simp [insertLe, h, ih]
      tauto

theorem sublist_insertLe {α : Type} (le : α → α → Bool) (x : α) (l : List α) :
    l.Sublist (insertLe le x l) := by
  induction l with
  | nil => simp [insertLe]
  | cons y ys ih =>
    by_cases h : le x y = true
    · simp [insertLe, h]
    · simp only [insertLe, h]
      rw [if_neg (by simp [h])]
      exact (ih.cons₂ y)

theorem pair_sublist_insertLe_self {α : Type} {le : α → α → Bool} {a b : α}
    {l : List α} (hab : le a b = true) (hb : b ∈ l) :
    [a, b].Sublist (insertLe le a l) := by
  induction l with
  | nil => cases hb
  | cons y ys ih =>
    by_cases h : le a y = true
    · simp only [insertLe]
      rw [if_pos h]
      exact (List.singleton_sublist.mpr hb).cons₂ a
    · simp only [insertLe]
      rw [if_neg (by simp [h])]
      have hby : b ≠ y := by
        rintro rfl
        exact absurd hab (by simp [h])
      rcases List.mem_cons.mp hb with h' | h'
      · exact absurd h' hby
      · exact (ih h').cons y

theorem mem_isortLe {α : Type} {le : α → α → Bool} {a : α} {l : List α} :
    a ∈ isortLe le l ↔ a ∈ l := by
  induction l with
  | nil => simp [isortLe]
  | cons x xs ih => simp [isortLe, mem_insertLe, ih]

theorem pair_sublist_isortLe {α : Type} {le : α → α → Bool} {a b : α}
    {l : List α} (hab : le a b = true) (h : [a, b].Sublist l) :
    [a, b].Sublist (isortLe le l) := by
  induction l with
  | nil => cases h
  | cons x xs ih =>
    cases h with
    | cons _ h' => exact (ih h').trans (sublist_insertLe le x (isortLe le xs))
    | cons₂ _ h' =>
      have hb : b ∈ isortLe le xs := mem_isortLe.mpr (List.singleton_sublist.mp h')
      exact pair_sublist_insertLe_self hab hb

theorem perm_insertLe {α : Type} (le : α → α → Bool) (x : α) (l : List α) :
    (insertLe le x l).Perm (x :: l) := by
  induction l with
  | nil => simp [insertLe]
  | cons y ys ih =>
    by_cases h : le x y = true
    · simp [insertLe, h]
    · simp only [insertLe]
      rw [if_neg (by simp [h])]
      exact (ih.cons y).trans (List.Perm.swap x y ys)

theorem perm_isortLe {α : Type} (le : α → α → Bool) (l : List α) :
    (isortLe le l).Perm l := by
  induction l with
  | nil => exact .refl _
  | cons x xs ih => exact (perm_insertLe le x (isortLe le xs)).trans (ih.cons x)

theorem pairwise_insertLe {α : Type} {le : α → α → Bool}
    (htot : ∀ a b, (le a b || le b a) = true)
    (htr : ∀ a b c, le a b = true → le b c = true → le a c = true)
    {x : α} {l : List α} (h : l.Pairwise (fun a b => le a b = true)) :
    (insertLe le x l).Pairwise (fun a b => le a b = true) := by
  induction l with
  | nil => simp [insertLe]
  | cons y ys ih =>
    obtain ⟨hy, hys⟩ := List.pairwise_cons.mp h
    by_cases hxy : le x y = true
    · simp only [insertLe]
      rw [if_pos hxy]
      refine List.pairwise_cons.mpr ⟨?_, h⟩
      intro z hz
      rcases List.mem_cons.mp hz with rfl | hz'
      · exact hxy
      · exact htr x y z hxy (hy z hz')
    · simp only [insertLe]
      rw [if_neg (by simp [hxy])]
      refine List.pairwise_cons.mpr ⟨?_, ih hys⟩
      intro z hz
      rcases mem_insertLe.mp hz with hzx | hz'
      · rw [hzx]
        have := htot x y
        simp [hxy] at this
        exact this
      · exact hy z hz'

theorem pairwise_isortLe {α : Type} {le : α → α → Bool}
    (htot : ∀ a b, (le a b || le b a) = true)
    (htr : ∀ a b c, le a b = true → le b c = true → le a c = true)
    (l : List α) : (isortLe le l).Pairwise (fun a b => le a b = true) := by
  induction l with
  | nil => exact .nil
  | cons x xs ih => exact pairwise_insertLe htot htr ih

theorem pair_sublist_of_sorted {α : Type} {le : α → α → Bool} {l : List α}
    {a b : α} (hs : l.Pairwise (fun x y => le x y = true)) (hnd : l.Nodup)
    (ha : a ∈ l) (hb : b ∈ l) (hrefl : le b b = true) (hba : le b a = false) :
    [a, b].Sublist l := by
  induction l with
  | nil => cases ha
  | cons x xs ih =>
    obtain ⟨hx, hxs⟩ := List.pairwise_cons.mp hs
    obtain ⟨hnx, hnxs⟩ := List.nodup_cons.mp hnd
    by_cases hax : a = x
    · subst hax
      have hbxs : b ∈ xs := by
        rcases List.mem_cons.mp hb with rfl | h'
        · rw [hrefl] at hba
          cases hba
        · exact h'
      exact (List.singleton_sublist.mpr hbxs).cons₂ a
    · have haxs : a ∈ xs := by
        rcases List.mem_cons.mp ha with h' | h'
        · exact absurd h' hax
        · exact h'
      have hbxs : b ∈ xs := by
        rcases List.mem_cons.mp hb with rfl | h'
        · rw [hx a haxs] at hba
          cases hba
        · exact h'
      exact (ih hxs hnxs haxs hbxs).cons x

theorem take_mem_of_pair_sublist {α : Type} {l : List α} {a b : α}
    (h : [a, b].Sublist l) (hnd : l.Nodup) {n : Nat} (hb : b ∈ l.take n) :
    a ∈ l.take n := by
  induction l generalizing n with
  | nil => simp at hb
  | cons x xs ih =>
    cases n with
    | zero => simp at hb
    | succ m =>
      obtain ⟨hnx, hnxs⟩ := List.nodup_cons.mp hnd
      cases h with
      | cons₂ _ h' => exact List.mem_cons_self _ _
      | cons _ h' =>
        have hbxs : b ∈ xs := by
          have := h'.subset
          exact this (by simp)
        have hbx : b ≠ x := by
          rintro rfl
          exact hnx hbxs
        have hbtake : b ∈ xs.take m := by
          rcases List.mem_cons.mp (by simpa using hb) with h'' | h''
          · exact absurd h'' hbx
          · exact h''
        exact List.mem_cons_of_mem x (ih h' hnxs hbtake)

theorem clLeB_refl (l : List Char) : clLeB l l = true := by
  induction l with
  | nil => rfl
  | cons a as ih => simp [clLeB, ih]

theorem clLeB_total (l1 l2 : List Char) :
    clLeB l1 l2 = true ∨ clLeB l2 l1 = true := by
  induction l1 generalizing l2 with
  | nil => exact .inl rfl
  | cons a as ih =>
    cases l2 with
    | nil => exact .inr rfl
    | cons b bs =>
      by_cases hab : a = b
      · subst hab
        simp only [clLeB, if_pos rfl]
        exact ih bs
      · rcases lt_trichotomy a b with h | h | h
        · exact .inl (by simp [clLeB, hab, h])
        · exact absurd h hab
        · have hba : ¬(b = a) := fun he => hab he.symm
          exact .inr (by simp [clLeB, hba, h])

theorem clLeB_trans (l1 l2 l3 : List Char) (h1 : clLeB l1 l2 = true)
    (h2 : clLeB l2 l3 = true) : clLeB l1 l3 = true := by
  induction l1 generalizing l2 l3 with
  | nil => rfl
  | cons a as ih =>
    cases l2 with
    | nil => simp [clLeB] at h1
    | cons b bs =>
      cases l3 with
      | nil => simp [clLeB] at h2
      | cons c cs =>
        by_cases hab : a = b
        · subst hab
          simp only [clLeB, if_pos rfl] at h1
          by_cases hbc : a = c
          · subst hbc
            simp only [clLeB, if_pos rfl] at h2 ⊢
            exact ih bs cs h1 h2
          · simp only [clLeB, if_neg hbc] at h2 ⊢
            exact h2
        · simp only [clLeB, if_neg hab] at h1
          have hlt1 : a < b := of_decide_eq_true h1
          by_cases hbc : b = c
          · subst hbc
            simp [clLeB, hab, hlt1]
          · simp only [clLeB, if_neg hbc] at h2
            have hlt2 : b < c := of_decide_eq_true h2
            have hac : a < c := hlt1.trans hlt2
            have hne : ¬(a = c) := fun he => absurd (he ▸ hac) (lt_irrefl c)
            simp [clLeB, hne, hac]

theorem pvLeB_refl (a : PyVal) : pvLeB a a = true := by
  simp [pvLeB, clLeB_refl]

theorem pvLeB_total (a b : PyVal) : (pvLeB a b || pvLeB b a) = true := by
  simp only [pvLeB, Bool.or_eq_true, decide_eq_true_eq, Bool.and_eq_true]
  rcases lt_trichotomy (pvRank a) (pvRank b) with h | h | h
  · exact .inl (.inl h)
  · rcases lt_trichotomy (pvPayloadInt a) (pvPayloadInt b) with h2 | h2 | h2
    · exact .inl (.inr ⟨h, .inl h2⟩)
    · rcases clLeB_total (pvPayloadStr a) (pvPayloadStr b) with h3 | h3
      · exact .inl (.inr ⟨h, .inr ⟨h2, h3⟩⟩)
      · exact .inr (.inr ⟨h.symm, .inr ⟨h2.symm, h3⟩⟩)
    · exact .inr (.inr ⟨h.symm, .inl h2⟩)
  · exact .inr (.inl h)

theorem pvLeB_trans (a b c : PyVal) (h1 : pvLeB a b = true)
    (h2 : pvLeB b c = true) : pvLeB a c = true := by
  simp only [pvLeB, Bool.or_eq_true, decide_eq_true_eq, Bool.and_eq_true] at h1 h2 ⊢
  rcases h1 with h1 | ⟨hr1, h1⟩
  · rcases h2 with h2 | ⟨hr2, h2⟩
    · exact .inl (h1.trans h2)
    · exact .inl (by omega)
  · rcases h2 with h2 | ⟨hr2, h2⟩
    · exact .inl (by omega)
    · refine .inr ⟨by omega, ?_⟩
      rcases h1 with h1 | ⟨hi1, h1⟩
      · rcases h2 with h2 | ⟨hi2, h2⟩
        · exact .inl (h1.trans h2)
        · exact .inl (by omega)
      · rcases h2 with h2 | ⟨hi2, h2⟩
        · exact .inl (by omega)
        · exact .inr ⟨by omega, clLeB_trans _ _ _ h1 h2⟩

theorem faKeys_aux {dim : String} {rows : List (List (String × PyVal))}
    (hdim : ∀ r ∈ rows, isStrOrNone (cell r dim) = true) :
    ∀ acc : List PyVal, acc.Nodup → (∀ v ∈ acc, ∃ s, v = .vstr s) →
      (faKeys dim rows acc).Nodup
        ∧ ∀ v ∈ faKeys dim rows acc, ∃ s, v = .vstr s := by
  induction rows with
  | nil => exact fun acc hnd hstr => ⟨hnd, hstr⟩
  | cons r rest ih =>
    intro acc hnd hstr
    have hdr := hdim r (by simp)
    have hdrest : ∀ r' ∈ rest, isStrOrNone (cell r' dim) = true :=
      fun r' hr' => hdim r' (by simp [hr'])
    simp only [faKeys]
    split
    · exact ih hdrest acc hnd hstr
    · rename_i hcond
      simp only [Bool.or_eq_true, not_or] at hcond
      obtain ⟨hnn, hany⟩ := hcond
      obtain ⟨s, hvs⟩ : ∃ s, cell r dim = .vstr s := by
        cases hv : cell r dim with
        | vstr s => exact ⟨s, rfl⟩
        | vnone => rw [hv] at hnn; simp at hnn
        | vbool b => rw [hv] at hdr; simp [isStrOrNone] at hdr
        | vint n => rw [hv] at hdr; simp [isStrOrNone] at hdr
        | vdate d => rw [hv] at hdr; simp [isStrOrNone] at hdr
        | vlist xs => rw [hv] at hdr; simp [isStrOrNone] at hdr
        | vdict kvs => rw [hv] at hdr; simp [isStrOrNone] at hdr
      have hnotin : cell r dim ∉ acc := by
        intro hin
        refine hany ?_
        refine List.any_eq_true.mpr ⟨cell r dim, hin, ?_⟩
        rw [hvs]
        simp [pvKeyEqB, pyEqB]
      refine ih hdrest (acc ++ [cell r dim]) ?_ ?_
      · refine List.nodup_append.mpr ⟨hnd, by simp, ?_⟩
        intro a ha hb
        rw [List.mem_singleton.mp hb] at ha
        exact hnotin ha
      · intro v hv
        rcases List.mem_append.mp hv with h | h
        · exact hstr v h
        · rw [List.mem_singleton.mp h, hvs]
          exact ⟨s, rfl⟩

/-- Claim C6 (counterexample): at an exact tie of the aggregate, the
executor keeps the alphabetically smaller group key, not the group that
appears first in the data.  `beta` appears first with the same total as
`alpha`, yet top-1 selects `alpha` — pandas sorts group keys before the
(stable) value sort, so first-appearance order is discarded. -/
theorem c6_tie_break_counterexample :
    apply_limit c6df c6limit
      = .ok ⟨["supplier", "total_landed_cost"],
          [[("supplier", .vstr "alpha"), ("total_landed_cost", .vint 10)]]⟩
      ∧ gsum c6df.rows "supplier" "total_landed_cost" (.vstr "beta")
          = gsum c6df.rows "supplier" "total_landed_cost" (.vstr "alpha")
      ∧ faKeys "supplier" c6df.rows [] = [.vstr "beta", .vstr "alpha"] :=
  ⟨rfl, rfl, rfl⟩

/-- Claim C6 (amended): ties at the top-N boundary are broken by
ascending group-key order, deterministically: whenever two distinct group
keys of a string-valued dimension have exactly equal aggregates and the
key-order-larger one is selected, the key-order-smaller one is selected
too.  (The model's stable sort matches numpy's insertion sort at the
group counts in scope.) -/
theorem c6_tie_broken_by_key_order (df : DFrame) (dim : String)
    (metricCol : Option String) (n : Nat) (k₁ k₂ : PyVal)
    (hdim : ∀ r ∈ df.rows, isStrOrNone (cell r dim) = true)
    (hk1 : k₁ ∈ faKeys dim df.rows []) (hk2 : k₂ ∈ faKeys dim df.rows [])
    (hlt : pvLeB k₂ k₁ = false)
    (hsum : limitAgg df.rows dim metricCol k₁ = limitAgg df.rows dim metricCol k₂)
    (hmem : k₂ ∈ limitTopKeys df dim metricCol n) :
    k₁ ∈ limitTopKeys df dim metricCol n := by
  have hnd0 : (faKeys dim df.rows []).Nodup :=
    (faKeys_aux hdim [] List.nodup_nil (by simp)).1
  have hndk : (isortLe pvLeB (faKeys dim df.rows [])).Nodup :=
    (perm_isortLe pvLeB (faKeys dim df.rows [])).symm.nodup hnd0
  have hsorted : (isortLe pvLeB (faKeys dim df.rows [])).Pairwise
      (fun a b => pvLeB a b = true) :=
    pairwise_isortLe pvLeB_total pvLeB_trans _
  have hma : k₁ ∈ isortLe pvLeB (faKeys dim df.rows []) := mem_isortLe.mpr hk1
  have hmb : k₂ ∈ isortLe pvLeB (faKeys dim df.rows []) := mem_isortLe.mpr hk2
  have hpair : [k₁, k₂].Sublist (isortLe pvLeB (faKeys dim df.rows [])) :=
    pair_sublist_of_sorted hsorted hndk hma hmb (pvLeB_refl k₂) hlt
  have hle' : (fun a b =>
      decide (limitAgg df.rows dim metricCol b ≤ limitAgg df.rows dim metricCol a))
        k₁ k₂ = true := by
    simp [hsum]
  have hpair2 : [k₁, k₂].Sublist (isortLe (fun a b =>
      decide (limitAgg df.rows dim metricCol b ≤ limitAgg df.rows dim metricCol a))
      (isortLe pvLeB (faKeys dim df.rows []))) :=
    pair_sublist_isortLe hle' hpair
  have hnd2 : (isortLe (fun a b =>
      decide (limitAgg df.rows dim metricCol b ≤ limitAgg df.rows dim metricCol a))
      (isortLe pvLeB (faKeys dim df.rows []))).Nodup :=
    (perm_isortLe _ _).symm.nodup hndk
  exact take_mem_of_pair_sublist hpair2 hnd2 hmem

theorem c6_tie_broken_by_key_order_witness :
    (.vstr "alpha") ∈ limitTopKeys c6df "supplier" (some "total_landed_cost") 2 :=
  c6_tie_broken_by_key_order c6df "supplier" (some "total_landed_cost") 2
    (.vstr "alpha") (.vstr "beta")
    (by decide)
    (show (PyVal.vstr "alpha") ∈ [PyVal.vstr "beta", PyVal.vstr "alpha"] from
      List.mem_cons_of_mem _ (List.mem_cons_self _ _))
    (show (PyVal.vstr "beta") ∈ [PyVal.vstr "beta", PyVal.vstr "alpha"] from
      List.mem_cons_self _ _)
    rfl rfl
    (show (PyVal.vstr "beta") ∈ [PyVal.vstr "alpha", PyVal.vstr "beta"] from
      List.mem_cons_of_mem _ (List.mem_cons_self _ _))

/- series-maximum lemmas for the date-window claim (C10) -/

theorem optMax_none {l : List (Option Int)} (h : optMax l = none) :
    ∀ o ∈ l, o = none := by
  induction l with
  | nil => simp
  | cons o rest ih =>
    cases o with
    | none =>
      intro o' ho'
      rcases List.mem_cons.mp ho' with rfl | h'
      · rfl
      · exact ih (by simpa [optMax] using h) o' h'
    | some x =>
      exfalso
      simp only [optMax] at h
      cases hr : optMax rest with
      | none => rw [hr] at h; cases h
      | some y => rw [hr] at h; cases h

theorem optMax_mem {l : List (Option Int)} :
    ∀ {m : Int}, optMax l = some m → some m ∈ l := by
  induction l with
  | nil => intro m h; cases h
  | cons o rest ih =>
    intro m h
    cases o with
    | none =>
      simp only [optMax] at h
      exact List.mem_cons_of_mem _ (ih h)
    | some x =>
      simp only [optMax] at h
      cases hr : optMax rest with
      | none =>
        rw [hr] at h
        cases h
        exact List.mem_cons_self _ _
      | some y =>
        rw [hr] at h
        cases h
        rcases max_choice x y with hm | hm
        · rw [hm]
          exact List.mem_cons_self _ _
        · rw [hm]
          exact List.mem_cons_of_mem _ (ih hr)

theorem optMax_ub {l : List (Option Int)} :
    ∀ {m : Int}, optMax l = some m → ∀ o ∈ l, ∀ x, o = some x → x ≤ m := by
  induction l with
  | nil => intro m h; cases h
  | cons o rest ih =>
    intro m h o' ho' x hx
    cases o with
    | none =>
      simp only [optMax] at h
      rcases List.mem_cons.mp ho' with rfl | h'
      · cases hx
      · exact ih h o' h' x hx
    | some v =>
      simp only [optMax] at h
      cases hr : optMax rest with
      | none =>
        rw [hr] at h
        cases h
        rcases List.mem_cons.mp ho' with rfl | h'
        · cases hx
          exact le_refl _
        · rw [optMax_none hr o' h'] at hx
          cases hx
      | some y =>
        rw [hr] at h
        cases h
        rcases List.mem_cons.mp ho' with rfl | h'
        · cases hx
          exact le_max_left _ _
        · exact (ih hr o' h' x hx).trans (le_max_right _ _)

/-- Claim C10 (counterexample): the `between` clause takes precedence
over a `last N days` phrase in the same question, so the selected window
need not end at the maximum `po_date`: with both phrases present, the
newest row (po_date day 18750, inside the claimed `last 2 days` window
ending at the maximum) is excluded by the `between` window. -/
theorem c10_between_priority_counterexample :
    build_date_mask c10df c10textBetween 2025 1 1 = some [false, false]
      ∧ last_n c10textBetween = some 2
      ∧ seriesPoDates c10df = [some 18750, none]
      ∧ ((18750 : Int) - 2 ≤ 18750 ∧ (18750 : Int) < 18750 + 1) :=
  ⟨rfl, rfl, rfl, by decide⟩

/-- Claim C10 (amended): for every question carrying a `last N ...`
phrase and no `between` clause (which takes precedence), the fallback
parser's date window is `[e − td, e + 1)` where `e` is the maximum
non-null parsed `po_date` of the dataset, falling back to the current
day exactly when every `po_date` is null; null dates never pass the
mask. -/
theorem c10_last_n_window_ends_at_max_po_date (df : DFrame) (text : String)
    (ty tm td n : Int) (hb : between_dates text = none)
    (hn : last_n text = some n) :
    ∃ e, build_date_mask df text ty tm td
        = some ((seriesPoDates df).map (fun d => inWin d (e - n) (e + 1)))
      ∧ ((some e ∈ seriesPoDates df
            ∧ ∀ o ∈ seriesPoDates df, ∀ x, o = some x → x ≤ e)
          ∨ ((∀ o ∈ seriesPoDates df, o = none) ∧ e = civilToDays ty tm td)) := by
  simp only [build_date_mask]
  rw [hb, hn]
  cases hm : optMax (seriesPoDates df) with
  | none => exact ⟨civilToDays ty tm td, rfl, .inr ⟨optMax_none hm, rfl⟩⟩
  | some m => exact ⟨m, rfl, .inl ⟨optMax_mem hm, optMax_ub hm⟩⟩

theorem c10_last_n_window_ends_at_max_po_date_witness :
    ∃ e, build_date_mask c10df c10text 2025 1 1
        = some ((seriesPoDates c10df).map (fun d => inWin d (e - 2) (e + 1)))
      ∧ ((some e ∈ seriesPoDates c10df
            ∧ ∀ o ∈ seriesPoDates c10df, ∀ x, o = some x → x ≤ e)
          ∨ ((∀ o ∈ seriesPoDates c10df, o = none) ∧ e = civilToDays 2025 1 1)) :=
  c10_last_n_window_ends_at_max_po_date c10df c10text 2025 1 1 2 rfl rfl
